import Mathlib

/-!
# Grav-Simulator: the scene model of `gravity_sim.cpp`

A shallow embedding of the initialisation and of the frame loop of `main`, with the binary32 and
binary64 arithmetic of the program modelled exactly on rational numbers, and theorems about the
wrap invariant of the asteroids, the planet angles, the brightness bounds, the parameter ranges
of stars and asteroids, the planet table, and the asteroids' speeds, rings and unwrapped angles.
-/

namespace GravSim

/-! ## Binary floating point

Finite floating-point values are rational numbers.  `roundTo prec emin` rounds a rational to
the nearest number `m * 2 ^ u` with `|m| < 2 ^ prec` and `emin ≤ u`, ties to the even
significand. -/

/-- Binary logarithm by halving, with `fuel` bounding the number of steps. -/
def log2Fuel : ℕ → ℕ → ℕ
  | 0, _ => 0
  | fuel + 1, n => if n < 2 then 0 else log2Fuel fuel (n / 2) + 1

/-- The position of the leading bit of `n`, that is `⌊log₂ n⌋` for `n ≥ 1`. -/
def natLog2 (n : ℕ) : ℕ := log2Fuel n n

/-- The binary exponent of a non-zero rational: `2 ^ ilog2 q ≤ |q| < 2 ^ (ilog2 q + 1)`. -/
def ilog2 (q : ℚ) : ℤ :=
  let e : ℤ := (natLog2 q.num.natAbs : ℤ) - (natLog2 q.den : ℤ)
  if (2 : ℚ) ^ e ≤ |q| then e else e - 1

/-- The integer nearest to `q`, the even one when `q` lies half way between two integers. -/
def roundHalfEven (q : ℚ) : ℤ :=
  let f := ⌊q⌋
  let r := q - f
  if r < 1 / 2 then f
  else if 1 / 2 < r then f + 1
  else if f % 2 = 0 then f else f + 1

/-- Rounding to `prec` significant bits with exponents not below `emin` (round to nearest,
ties to even, gradual underflow, no overflow). -/
def roundTo (prec : ℕ) (emin : ℤ) (q : ℚ) : ℚ :=
  if q = 0 then 0
  else
    let u := max (ilog2 q - (prec - 1)) emin
    (roundHalfEven (q / 2 ^ u) : ℚ) * 2 ^ u

/-! ## The program's arithmetic types

The types `float` and `double` are IEEE 754 binary32 and binary64.  A finite value of either
type is a rational number, and every conversion and arithmetic operation of the program returns
the exact rational result rounded once to the type C++ gives the operation (round to nearest,
ties to even, gradual underflow; no excess precision, no fused multiply-add).  Overflow to
infinity and NaN are outside the model. -/

/-- Rounding to `float` (binary32: 24 significant bits, least exponent `-149`). -/
def f32 (q : ℚ) : ℚ := roundTo 24 (-149) q

/-- Rounding to `double` (binary64: 53 significant bits, least exponent `-1074`). -/
def f64 (q : ℚ) : ℚ := roundTo 53 (-1074) q

/-- The function `std::max(a, b)`, which is `(a < b) ? b : a`. -/
def stdMax (a b : ℚ) : ℚ := if a < b then b else a

/-- The function `std::min(a, b)`, which is `(b < a) ? b : a`. -/
def stdMin (a b : ℚ) : ℚ := if b < a then b else a

/-- The functions of the C math library the program calls.  Their values are not fixed by the
language, so they are parameters of the model: `sin` is `double sin(double)` (used for the sun),
`sinf` and `cosf` are the `float` overloads selected for `float` arguments. -/
structure Libm where
  sin : ℚ → ℚ
  sinf : ℚ → ℚ
  cosf : ℚ → ℚ

/-! ## Constants and records of `gravity_sim.cpp` -/

/-- The constant `WIDTH`. -/
def WIDTH : ℤ := 800

/-- The constant `HEIGHT`. -/
def HEIGHT : ℤ := 800

/-- The constant `NUM_STARS`. -/
def NUM_STARS : ℕ := 200

/-- The constant `ASTEROIDS_PER_ORBIT`. -/
def ASTEROIDS_PER_ORBIT : ℕ := 10

/-- The constant `RAND_MAX` of `<cstdlib>`: `0x7fffffff` on the platforms that provide the
`GLUT/glut.h` framework header the program includes. -/
def RAND_MAX : ℕ := 2147483647

/-- The constant `M_PI` of `<cmath>`: the `double` nearest to its decimal literal. -/
def M_PI : ℚ := f64 3.14159265358979323846

/-- The record `Planet`; every field is a `float`. -/
structure Planet where
  radius : ℚ
  orbitRadius : ℚ
  orbitSpeed : ℚ
  angle : ℚ
  r : ℚ
  g : ℚ
  b : ℚ
  deriving DecidableEq

/-- The record `Star`; every field is a `float`. -/
structure Star where
  x : ℚ
  y : ℚ
  baseBrightness : ℚ
  twinklePhase : ℚ
  deriving DecidableEq

/-- The record `Asteroid`; every field is a `float`. -/
structure Asteroid where
  orbitRadius : ℚ
  orbitSpeed : ℚ
  angle : ℚ
  x : ℚ
  y : ℚ
  deriving DecidableEq

/-- The global `planets` table; every initialiser is converted to `float`. -/
def planets : List Planet := [
  ⟨f32 12, f32 48, f32 0.02, f32 0, f32 0.6, f32 0.6, f32 0.6⟩,
  ⟨f32 15, f32 72, f32 0.015, f32 0, f32 1.0, f32 0.5, f32 0.3⟩,
  ⟨f32 15, f32 96, f32 0.012, f32 0, f32 0.0, f32 0.5, f32 1.0⟩,
  ⟨f32 13.5, f32 120, f32 0.009, f32 0, f32 1.0, f32 0.2, f32 0.2⟩,
  ⟨f32 27, f32 168, f32 0.006, f32 0, f32 1.0, f32 0.8, f32 0.2⟩,
  ⟨f32 22.5, f32 216, f32 0.005, f32 0, f32 0.9, f32 0.9, f32 0.6⟩,
  ⟨f32 18, f32 264, f32 0.004, f32 0, f32 0.6, f32 0.8, f32 1.0⟩,
  ⟨f32 18, f32 312, f32 0.003, f32 0, f32 0.2, f32 0.5, f32 1.0⟩]

/-- The global `planetNames` table. -/
def planetNames : List String :=
  ["Mercury", "Venus", "Earth", "Mars", "Jupiter", "Saturn", "Uranus", "Neptune"]

/-- The scene: the three global vectors. -/
structure Scene where
  stars : List Star
  planets : List Planet
  asteroidsPerOrbit : List (List Asteroid)

/-! ## Initialisation (`main`, before the frame loop)

`rand n` is the value returned by the `n`-th call of `std::rand()` after `std::srand`
(counting from `0`); every such value lies in `0 .. RAND_MAX`. -/

/-- One iteration of the "Generate stars" loop, from the four `rand()` results it consumes. -/
def mkStar (kx ky kb kp : ℕ) : Star :=
  { x := f32 (f32 (((kx : ℤ) % WIDTH : ℤ) : ℚ) - f32 (f32 (WIDTH : ℚ) / 2.0))
    y := f32 (f32 (((ky : ℤ) % HEIGHT : ℤ) : ℚ) - f32 (f32 (HEIGHT : ℚ) / 2.0))
    baseBrightness := f32 (0.5 + f32 (f32 (kb : ℚ) / f32 (f32 (RAND_MAX : ℚ) / 0.5)))
    twinklePhase := f32 (f32 (kp : ℚ) / f32 (f64 (f64 (RAND_MAX : ℚ) / f64 (2.0 * M_PI)))) }

/-- The "Generate stars" loop: star `i` consumes the `rand()` calls `4 * i .. 4 * i + 3`. -/
def initStars (rand : ℕ → ℕ) : List Star :=
  (List.range NUM_STARS).map fun i =>
    mkStar (rand (4 * i)) (rand (4 * i + 1)) (rand (4 * i + 2)) (rand (4 * i + 3))

/-- The initial `angle` of an asteroid: `static_cast<float>(rand()) / RAND_MAX * 2.0f * M_PI`. -/
def asteroidAngle (k : ℕ) : ℚ :=
  f32 (f64 (f32 (f32 (f32 (k : ℚ) / f32 (RAND_MAX : ℚ)) * 2.0) * M_PI))

/-- The factor `1.5f + static_cast<float>(rand()) / RAND_MAX` of the asteroid speed. -/
def speedFactor (k : ℕ) : ℚ := f32 (1.5 + f32 (f32 (k : ℚ) / f32 (RAND_MAX : ℚ)))

/-- The `speed` of an asteroid:
`planets[i].orbitSpeed * (1.5f + static_cast<float>(rand()) / RAND_MAX)`. -/
def asteroidSpeed (p : Planet) (k : ℕ) : ℚ := f32 (p.orbitSpeed * speedFactor k)

/-- One iteration of the inner "Generate asteroids" loop. -/
def mkAsteroid (p : Planet) (kAngle kSpeed : ℕ) : Asteroid :=
  { orbitRadius := p.orbitRadius
    orbitSpeed := asteroidSpeed p kSpeed
    angle := asteroidAngle kAngle
    x := 0.0
    y := 0.0 }

/-- The outer "Generate asteroids" loop over the planets still to visit; `c` is the number of
`rand()` calls made so far. -/
def initAsteroidsFrom (rand : ℕ → ℕ) : ℕ → List Planet → List (List Asteroid)
  | _, [] => []
  | c, p :: ps =>
    ((List.range ASTEROIDS_PER_ORBIT).map fun a =>
        mkAsteroid p (rand (c + 2 * a)) (rand (c + 2 * a + 1))) ::
      initAsteroidsFrom rand (c + 2 * ASTEROIDS_PER_ORBIT) ps

/-- The "Generate asteroids" loops, entered after the `4 * NUM_STARS` calls of the stars. -/
def initAsteroids (rand : ℕ → ℕ) : List (List Asteroid) :=
  initAsteroidsFrom rand (4 * NUM_STARS) planets

/-- The state when the frame loop is entered. -/
def initScene (rand : ℕ → ℕ) : Scene :=
  { stars := initStars rand
    planets := planets
    asteroidsPerOrbit := initAsteroids rand }

/-! ## The frame loop -/

/-- The brightness `drawStar` passes to `glColor3f`. -/
def drawStar (m : Libm) (star : Star) (time : ℚ) : ℚ :=
  let brightness := f32 (star.baseBrightness + f32 (0.5 * m.sinf (f32 (time + star.twinklePhase))))
  stdMax (f32 0.3) (stdMin 1.0 brightness)

/-- The `time` argument of the `drawStar` call: `(float)elapsed * 5.0f`. -/
def starTime (elapsed : ℚ) : ℚ := f32 (f32 elapsed * 5.0)

/-- The local `sunBrightness`: `0.8f + 0.2f * sin(elapsed * 5.0f)`, computed in `double` and
stored in a `float`. -/
def sunBrightness (m : Libm) (elapsed : ℚ) : ℚ :=
  f32 (f64 (f32 0.8 + f64 (f32 0.2 * m.sin (f64 (elapsed * 5.0)))))

/-- The vertices passed to `glVertex2f` by `drawOrbit(radius)`, in order. -/
def drawOrbit (m : Libm) (radius : ℚ) : List (ℚ × ℚ) :=
  (List.range 100).map fun i =>
    let angle := f32 (f64 (f64 (f32 (f32 (i : ℚ) * 2.0) * M_PI) / 100))
    (f32 (radius * m.cosf angle), f32 (radius * m.sinf angle))

/-- The "Draw orbits" loop of a frame: one call `drawOrbit(p.orbitRadius)` per planet. -/
def drawOrbits (m : Libm) (ps : List Planet) : List (List (ℚ × ℚ)) :=
  ps.map fun p => drawOrbit m p.orbitRadius

/-- The body of the "Update & draw asteroids" loop. -/
def updateAsteroid (m : Libm) (a : Asteroid) : Asteroid :=
  let angle1 := f32 (a.angle + a.orbitSpeed)
  let angle2 :=
    if angle1 > f64 (2.0 * M_PI) then f32 (f64 (angle1 - f64 (2.0 * M_PI))) else angle1
  { a with
    angle := angle2
    x := f32 (a.orbitRadius * m.cosf angle2)
    y := f32 (a.orbitRadius * m.sinf angle2) }

/-- What one iteration of the "Draw planets and names" loop draws: a disc and a label. -/
structure PlanetDraw where
  x : ℚ
  y : ℚ
  radius : ℚ
  r : ℚ
  g : ℚ
  b : ℚ
  textX : ℚ
  textY : ℚ
  label : Option String

/-- The draw calls of iteration `i` of the planet loop; `planetNames[i]` is read unchecked. -/
def drawPlanet (m : Libm) (i : ℕ) (p : Planet) : PlanetDraw :=
  let x := f32 (p.orbitRadius * m.cosf p.angle)
  let y := f32 (p.orbitRadius * m.sinf p.angle)
  { x := x, y := y, radius := p.radius, r := p.r, g := p.g, b := p.b
    textX := f32 (x + 5), textY := f32 (y + 5), label := planetNames[i]? }

/-- The state change of one iteration of the planet loop: `p.angle += p.orbitSpeed`. -/
def updatePlanet (p : Planet) : Planet :=
  { p with angle := f32 (p.angle + p.orbitSpeed) }

/-- The draw calls of the whole planet loop, from index `i` on. -/
def drawPlanetsFrom (m : Libm) : ℕ → List Planet → List PlanetDraw
  | _, [] => []
  | i, p :: ps => drawPlanet m i p :: drawPlanetsFrom m (i + 1) ps

/-- The state after one pass of the frame loop. -/
def frame (m : Libm) (s : Scene) : Scene :=
  { stars := s.stars
    planets := s.planets.map updatePlanet
    asteroidsPerOrbit := s.asteroidsPerOrbit.map (List.map (updateAsteroid m)) }

/-- The state after `n` passes of the frame loop. -/
def frames (m : Libm) : ℕ → Scene → Scene
  | 0, s => s
  | n + 1, s => frames m n (frame m s)

/-- The left bound `-WIDTH/2` passed to `glOrtho`. -/
def orthoLeft : ℤ := -WIDTH / 2

/-- The right bound `WIDTH/2` passed to `glOrtho`. -/
def orthoRight : ℤ := WIDTH / 2

/-- The bottom bound `-HEIGHT/2` passed to `glOrtho`. -/
def orthoBottom : ℤ := -HEIGHT / 2

/-- The top bound `HEIGHT/2` passed to `glOrtho`. -/
def orthoTop : ℤ := HEIGHT / 2

/-! ## Derived notions and sample inputs -/

/-- A sample math library whose three functions are constant. -/
def constLibm (c : ℚ) : Libm := ⟨fun _ => c, fun _ => c, fun _ => c⟩

/-- A sample math library that returns the same `sin`/`sinf` value `s` and the same `cosf`
value `c` at every argument. -/
def fixedLibm (s c : ℚ) : Libm := ⟨fun _ => s, fun _ => s, fun _ => c⟩

/-- A sample sequence of `rand()` results (a linear congruential generator). -/
def sampleRand (n : ℕ) : ℕ := (1103515245 * n + 12345) % 2147483648

/-- The angle of a planet after `n` frames: `n` `float` additions of `speed` to `a`. -/
def planetAngle (speed : ℚ) (n : ℕ) (a : ℚ) : ℚ := (fun x => f32 (x + speed))^[n] a

/-! ## Properties of rounding -/

theorem log2Fuel_spec (fuel : ℕ) : ∀ n : ℕ, 1 ≤ n → n ≤ fuel →
    2 ^ log2Fuel fuel n ≤ n ∧ n < 2 ^ (log2Fuel fuel n + 1) := by
  induction fuel with
  | zero => intro n h1 h2; omega
  | succ fuel ih =>
    intro n h1 h2
    unfold log2Fuel
    by_cases h : n < 2
    · simp only [h, if_true]
      constructor
      · simpa using h1
      · simpa using h
    · simp only [h, if_false]
      have hn : 1 ≤ n / 2 := by omega
      have hf : n / 2 ≤ fuel := by omega
      obtain ⟨ha, hb⟩ := ih (n / 2) hn hf
      generalize log2Fuel fuel (n / 2) = l at ha hb
      constructor
      · rw [pow_succ]; omega
      · rw [pow_succ] at hb ⊢; omega

theorem natLog2_spec (n : ℕ) (h : 1 ≤ n) :
    2 ^ natLog2 n ≤ n ∧ n < 2 ^ (natLog2 n + 1) :=
  log2Fuel_spec n n h le_rfl

theorem abs_eq_natAbs_div_den (q : ℚ) : |q| = (q.num.natAbs : ℚ) / (q.den : ℚ) := by
  have h1 : (q.num.natAbs : ℚ) = |(q.num : ℚ)| := by
    rw [Nat.cast_natAbs, Int.cast_abs]
  rw [h1]
  conv_lhs => rw [← Rat.num_div_den q]
  rw [abs_div]
  congr 1
  exact abs_of_pos (by exact_mod_cast q.den_pos)

theorem ilog2_spec (q : ℚ) (hq : q ≠ 0) :
    (2 : ℚ) ^ ilog2 q ≤ |q| ∧ |q| < (2 : ℚ) ^ (ilog2 q + 1) := by
  have hn : 1 ≤ q.num.natAbs := by
    have : q.num ≠ 0 := Rat.num_ne_zero.mpr hq
    omega
  have hd : 1 ≤ q.den := q.den_pos
  unfold ilog2
  simp only
  obtain ⟨na, nb⟩ := natLog2_spec _ hn
  obtain ⟨da, db⟩ := natLog2_spec _ hd
  have habs := abs_eq_natAbs_div_den q
  have hdpos : (0 : ℚ) < (q.den : ℚ) := by exact_mod_cast q.den_pos
  have na' : (2 : ℚ) ^ (natLog2 q.num.natAbs : ℤ) ≤ (q.num.natAbs : ℚ) := by
    rw [zpow_natCast]; exact_mod_cast na
  have nb' : (q.num.natAbs : ℚ) < (2 : ℚ) ^ ((natLog2 q.num.natAbs : ℤ) + 1) := by
    rw [show ((natLog2 q.num.natAbs : ℤ) + 1) = ((natLog2 q.num.natAbs + 1 : ℕ) : ℤ) by simp,
      zpow_natCast]; exact_mod_cast nb
  have da' : (2 : ℚ) ^ (natLog2 q.den : ℤ) ≤ (q.den : ℚ) := by
    rw [zpow_natCast]; exact_mod_cast da
  have db' : (q.den : ℚ) < (2 : ℚ) ^ ((natLog2 q.den : ℤ) + 1) := by
    rw [show ((natLog2 q.den : ℤ) + 1) = ((natLog2 q.den + 1 : ℕ) : ℤ) by simp,
      zpow_natCast]; exact_mod_cast db
  generalize (natLog2 q.num.natAbs : ℤ) = a at na' nb'
  generalize (natLog2 q.den : ℤ) = b at da' db'
  have h2 : (0 : ℚ) < 2 := by norm_num
  have upper : |q| < (2 : ℚ) ^ (a - b + 1) := by
    rw [habs, div_lt_iff₀ hdpos]
    calc (q.num.natAbs : ℚ) < 2 ^ (a + 1) := nb'
      _ = 2 ^ (a - b + 1) * 2 ^ b := by rw [← zpow_add₀ h2.ne']; congr 1; ring
      _ ≤ 2 ^ (a - b + 1) * q.den := by
        apply mul_le_mul_of_nonneg_left da' (le_of_lt (zpow_pos h2 _))
  have lower : (2 : ℚ) ^ (a - b - 1) ≤ |q| := by
    rw [habs, le_div_iff₀ hdpos]
    calc (2 : ℚ) ^ (a - b - 1) * q.den ≤ 2 ^ (a - b - 1) * 2 ^ (b + 1) := by
          apply mul_le_mul_of_nonneg_left (le_of_lt db') (le_of_lt (zpow_pos h2 _))
      _ = 2 ^ a := by rw [← zpow_add₀ h2.ne']; congr 1; ring
      _ ≤ q.num.natAbs := na'
  split_ifs with h
  · exact ⟨h, upper⟩
  · refine ⟨lower, ?_⟩
    rw [sub_add_cancel]
    exact lt_of_not_le h

theorem roundHalfEven_intCast (z : ℤ) : roundHalfEven (z : ℚ) = z := by
  unfold roundHalfEven
  simp

theorem roundHalfEven_of_lt (s : ℚ) (h : s - ⌊s⌋ < 1 / 2) : roundHalfEven s = ⌊s⌋ := by
  unfold roundHalfEven
  exact if_pos h

theorem roundHalfEven_of_gt (s : ℚ) (h : 1 / 2 < s - ⌊s⌋) : roundHalfEven s = ⌊s⌋ + 1 := by
  unfold roundHalfEven
  simp only
  rw [if_neg (not_lt.mpr (le_of_lt h)), if_pos h]

theorem roundHalfEven_of_eq (s : ℚ) (h : s - ⌊s⌋ = 1 / 2) :
    roundHalfEven s = if ⌊s⌋ % 2 = 0 then ⌊s⌋ else ⌊s⌋ + 1 := by
  unfold roundHalfEven
  simp only
  rw [if_neg (not_lt.mpr (le_of_eq h.symm)), if_neg (not_lt.mpr (le_of_eq h))]

theorem floor_le_roundHalfEven (s : ℚ) : ⌊s⌋ ≤ roundHalfEven s := by
  rcases lt_trichotomy (s - ⌊s⌋) (1 / 2) with h | h | h
  · rw [roundHalfEven_of_lt s h]
  · rw [roundHalfEven_of_eq s h]
    split_ifs
    · exact le_rfl
    · exact Int.le_add_one le_rfl
  · rw [roundHalfEven_of_gt s h]
    exact Int.le_add_one le_rfl

theorem roundHalfEven_le_floor_add_one (s : ℚ) : roundHalfEven s ≤ ⌊s⌋ + 1 := by
  rcases lt_trichotomy (s - ⌊s⌋) (1 / 2) with h | h | h
  · rw [roundHalfEven_of_lt s h]
    exact Int.le_add_one le_rfl
  · rw [roundHalfEven_of_eq s h]
    split_ifs
    · exact Int.le_add_one le_rfl
    · exact le_rfl
  · rw [roundHalfEven_of_gt s h]

theorem roundHalfEven_mono {s t : ℚ} (h : s ≤ t) : roundHalfEven s ≤ roundHalfEven t := by
  rcases lt_or_eq_of_le (Int.floor_mono h) with hlt | heq
  · exact le_trans (roundHalfEven_le_floor_add_one s)
      (le_trans (Int.add_one_le_iff.mpr hlt) (floor_le_roundHalfEven t))
  · have hr : s - ⌊s⌋ ≤ t - ⌊t⌋ := by rw [heq]; exact sub_le_sub_right h _
    rcases lt_trichotomy (t - ⌊t⌋) (1 / 2) with ht | ht | ht
    · rw [roundHalfEven_of_lt s (lt_of_le_of_lt hr ht), roundHalfEven_of_lt t ht, heq]
    · rcases lt_or_eq_of_le hr with hs | hs
      · rw [roundHalfEven_of_lt s (lt_of_lt_of_eq hs ht), heq]
        exact floor_le_roundHalfEven t
      · have hst : s = t := by
          rw [heq] at hs
          exact sub_left_injective hs
        rw [hst]
    · rw [roundHalfEven_of_gt t ht, ← heq]
      exact roundHalfEven_le_floor_add_one s

theorem roundHalfEven_le_of_le {s : ℚ} {n : ℤ} (h : s ≤ n) : roundHalfEven s ≤ n := by
  have := roundHalfEven_mono h
  rwa [roundHalfEven_intCast] at this

theorem le_roundHalfEven_of_le {s : ℚ} {n : ℤ} (h : (n : ℚ) ≤ s) : n ≤ roundHalfEven s := by
  have := roundHalfEven_mono h
  rwa [roundHalfEven_intCast] at this

theorem roundHalfEven_neg (s : ℚ) : roundHalfEven (-s) = -roundHalfEven s := by
  by_cases hint : (⌊s⌋ : ℚ) = s
  · rw [← hint, ← Int.cast_neg, roundHalfEven_intCast, roundHalfEven_intCast]
  · have hlt : (⌊s⌋ : ℚ) < s := lt_of_le_of_ne (Int.floor_le s) hint
    have hfs1 : s < ⌊s⌋ + 1 := Int.lt_floor_add_one s
    have hfl : ⌊-s⌋ = -⌊s⌋ - 1 := by
      rw [Int.floor_eq_iff]
      push_cast
      constructor <;> linarith
    have hfrac : -s - ((⌊-s⌋ : ℤ) : ℚ) = 1 - (s - ⌊s⌋) := by
      rw [hfl]; push_cast; ring
    rcases lt_trichotomy (s - ⌊s⌋) (1 / 2) with h | h | h
    · rw [roundHalfEven_of_lt s h, roundHalfEven_of_gt (-s) (by rw [hfrac]; linarith), hfl]
      ring
    · rw [roundHalfEven_of_eq s h, roundHalfEven_of_eq (-s) (by rw [hfrac, h]; norm_num), hfl]
      split_ifs <;> omega
    · rw [roundHalfEven_of_gt s h, roundHalfEven_of_lt (-s) (by rw [hfrac]; linarith), hfl]
      ring

theorem two_zpow_pos (u : ℤ) : (0 : ℚ) < 2 ^ u := zpow_pos (by norm_num) u

theorem roundTo_zero (p : ℕ) (e : ℤ) : roundTo p e 0 = 0 := by
  simp [roundTo]

theorem ilog2_neg (q : ℚ) : ilog2 (-q) = ilog2 q := by
  unfold ilog2
  simp

theorem roundTo_neg (p : ℕ) (e : ℤ) (q : ℚ) : roundTo p e (-q) = -roundTo p e q := by
  unfold roundTo
  by_cases h : q = 0
  · simp [h]
  · have h' : -q ≠ 0 := neg_ne_zero.mpr h
    simp only [h, h', if_false, ilog2_neg, neg_div, roundHalfEven_neg]
    push_cast
    ring

theorem roundTo_nonneg (p : ℕ) (e : ℤ) {q : ℚ} (h : 0 ≤ q) : 0 ≤ roundTo p e q := by
  unfold roundTo
  split_ifs with h0
  · exact le_rfl
  · simp only
    apply mul_nonneg _ (le_of_lt (two_zpow_pos _))
    have : (0 : ℤ) ≤ roundHalfEven (q / 2 ^ max (ilog2 q - (↑p - 1)) e) := by
      apply le_roundHalfEven_of_le
      simpa using div_nonneg h (le_of_lt (two_zpow_pos _))
    exact_mod_cast this

theorem roundTo_nonpos (p : ℕ) (e : ℤ) {q : ℚ} (h : q ≤ 0) : roundTo p e q ≤ 0 := by
  have := roundTo_nonneg p e (neg_nonneg.mpr h)
  rw [roundTo_neg] at this
  linarith

theorem ilog2_mono {x y : ℚ} (hx : 0 < x) (hxy : x ≤ y) : ilog2 x ≤ ilog2 y := by
  have hy : 0 < y := lt_of_lt_of_le hx hxy
  obtain ⟨a, _⟩ := ilog2_spec x hx.ne'
  obtain ⟨_, b⟩ := ilog2_spec y hy.ne'
  rw [abs_of_pos hx] at a
  rw [abs_of_pos hy] at b
  have : (2 : ℚ) ^ ilog2 x < 2 ^ (ilog2 y + 1) := lt_of_le_of_lt (le_trans a hxy) b
  have := (zpow_lt_zpow_iff_right₀ (by norm_num : (1 : ℚ) < 2)).mp this
  omega

theorem roundTo_mono_pos (p : ℕ) (hp : 1 ≤ p) (e : ℤ) {x y : ℚ} (hx : 0 < x) (hxy : x ≤ y) :
    roundTo p e x ≤ roundTo p e y := by
  have hy : 0 < y := lt_of_lt_of_le hx hxy
  have hlog := ilog2_mono hx hxy
  obtain ⟨_, xhi⟩ := ilog2_spec x hx.ne'
  obtain ⟨ylo, _⟩ := ilog2_spec y hy.ne'
  rw [abs_of_pos hx] at xhi
  rw [abs_of_pos hy] at ylo
  unfold roundTo
  simp only [hx.ne', hy.ne', if_false]
  set ux := max (ilog2 x - ((p : ℤ) - 1)) e with hux
  set uy := max (ilog2 y - ((p : ℤ) - 1)) e with huy
  have huxy : ux ≤ uy := max_le_max (by omega) le_rfl
  have h2 : (0 : ℚ) < 2 := by norm_num
  rcases eq_or_lt_of_le huxy with heq | hlt
  · rw [← heq]
    apply mul_le_mul_of_nonneg_right _ (le_of_lt (two_zpow_pos _))
    have := roundHalfEven_mono (div_le_div_of_nonneg_right hxy (le_of_lt (two_zpow_pos ux)))
    exact_mod_cast this
  · -- different binades: both sides are separated by the power of two `2 ^ ilog2 y`
    have hpz : (1 : ℤ) ≤ (p : ℤ) := by exact_mod_cast hp
    have huy' : uy = ilog2 y - ((p : ℤ) - 1) := by
      rcases le_total (ilog2 y - ((p : ℤ) - 1)) e with h | h
      · exfalso
        have : uy = e := max_eq_right h
        have : e ≤ ux := le_max_right _ _
        omega
      · exact max_eq_left h
    have hex : ilog2 x - ((p : ℤ) - 1) ≤ ux := le_max_left _ _
    have hlt' : ilog2 x + 1 ≤ ilog2 y := by omega
    have hxlt : x ≤ 2 ^ ilog2 y :=
      le_trans (le_of_lt xhi) (zpow_le_zpow_right₀ (by norm_num) hlt')
    -- left side is at most `2 ^ ilog2 y`
    have hk : 0 ≤ ilog2 y - ux := by omega
    have hleft : (roundHalfEven (x / 2 ^ ux) : ℚ) * 2 ^ ux ≤ 2 ^ ilog2 y := by
      have hdiv : x / 2 ^ ux ≤ (((2 : ℤ) ^ (ilog2 y - ux).toNat : ℤ) : ℚ) := by
        rw [div_le_iff₀ (two_zpow_pos ux)]
        push_cast
        rw [← zpow_natCast, Int.toNat_of_nonneg hk, ← zpow_add₀ h2.ne']
        simpa using hxlt
      have := roundHalfEven_le_of_le hdiv
      have hc : (roundHalfEven (x / 2 ^ ux) : ℚ) ≤ (((2 : ℤ) ^ (ilog2 y - ux).toNat : ℤ) : ℚ) := by
        exact_mod_cast this
      calc (roundHalfEven (x / 2 ^ ux) : ℚ) * 2 ^ ux
          ≤ (((2 : ℤ) ^ (ilog2 y - ux).toNat : ℤ) : ℚ) * 2 ^ ux :=
            mul_le_mul_of_nonneg_right hc (le_of_lt (two_zpow_pos _))
        _ = 2 ^ ilog2 y := by
            push_cast
            rw [← zpow_natCast, Int.toNat_of_nonneg hk, ← zpow_add₀ h2.ne']
            congr 1; ring
    have hright : (2 : ℚ) ^ ilog2 y ≤ (roundHalfEven (y / 2 ^ uy) : ℚ) * 2 ^ uy := by
      have hk' : 0 ≤ ilog2 y - uy := by omega
      have hdiv : (((2 : ℤ) ^ (ilog2 y - uy).toNat : ℤ) : ℚ) ≤ y / 2 ^ uy := by
        rw [le_div_iff₀ (two_zpow_pos uy)]
        push_cast
        rw [← zpow_natCast, Int.toNat_of_nonneg hk', ← zpow_add₀ h2.ne']
        simpa using ylo
      have := le_roundHalfEven_of_le hdiv
      have hc : (((2 : ℤ) ^ (ilog2 y - uy).toNat : ℤ) : ℚ) ≤ (roundHalfEven (y / 2 ^ uy) : ℚ) := by
        exact_mod_cast this
      calc (2 : ℚ) ^ ilog2 y = (((2 : ℤ) ^ (ilog2 y - uy).toNat : ℤ) : ℚ) * 2 ^ uy := by
            push_cast
            rw [← zpow_natCast, Int.toNat_of_nonneg hk', ← zpow_add₀ h2.ne']
            congr 1; ring
        _ ≤ (roundHalfEven (y / 2 ^ uy) : ℚ) * 2 ^ uy :=
            mul_le_mul_of_nonneg_right hc (le_of_lt (two_zpow_pos _))
    exact le_trans hleft hright

theorem roundTo_mono (p : ℕ) (hp : 1 ≤ p) (e : ℤ) {x y : ℚ} (hxy : x ≤ y) :
    roundTo p e x ≤ roundTo p e y := by
  rcases lt_or_le 0 x with hx | hx
  · exact roundTo_mono_pos p hp e hx hxy
  · rcases le_or_lt 0 y with hy | hy
    · exact le_trans (roundTo_nonpos p e hx) (roundTo_nonneg p e hy)
    · have h := roundTo_mono_pos p hp e (neg_pos.mpr hy) (neg_le_neg hxy)
      rw [roundTo_neg, roundTo_neg] at h
      linarith

/-- A value `m * 2 ^ u` whose significand `m` has at most `prec` bits and whose exponent is
not below `emin` is left unchanged by rounding. -/
theorem roundTo_of_repr (p : ℕ) (e : ℤ) (m u : ℤ) (hm : |m| < 2 ^ p) (hu : e ≤ u) :
    roundTo p e ((m : ℚ) * 2 ^ u) = (m : ℚ) * 2 ^ u := by
  by_cases hm0 : m = 0
  · simp [hm0, roundTo_zero]
  have h2 : (0 : ℚ) < 2 := by norm_num
  have hq : (m : ℚ) * 2 ^ u ≠ 0 := mul_ne_zero (by exact_mod_cast hm0) (two_zpow_pos u).ne'
  obtain ⟨lo, _⟩ := ilog2_spec _ hq
  have habs : |(m : ℚ) * 2 ^ u| < 2 ^ ((p : ℤ) + u) := by
    rw [abs_mul, abs_of_pos (two_zpow_pos u), zpow_add₀ h2.ne']
    apply mul_lt_mul_of_pos_right _ (two_zpow_pos u)
    rw [zpow_natCast]
    exact_mod_cast hm
  have hlog : ilog2 ((m : ℚ) * 2 ^ u) < (p : ℤ) + u :=
    (zpow_lt_zpow_iff_right₀ (by norm_num : (1 : ℚ) < 2)).mp (lt_of_le_of_lt lo habs)
  unfold roundTo
  simp only [hq, if_false]
  set v := max (ilog2 ((m : ℚ) * 2 ^ u) - ((p : ℤ) - 1)) e with hv
  have hvu : v ≤ u := max_le (by omega) hu
  have hk : 0 ≤ u - v := by omega
  have hcast : (m : ℚ) * 2 ^ u / 2 ^ v = ((m * 2 ^ (u - v).toNat : ℤ) : ℚ) := by
    rw [div_eq_iff (two_zpow_pos v).ne']
    push_cast
    rw [← zpow_natCast, Int.toNat_of_nonneg hk, mul_assoc, ← zpow_add₀ h2.ne']
    congr 2; ring
  rw [hcast, roundHalfEven_intCast, ← hcast]
  field_simp

theorem roundHalfEven_abs_sub_le (s : ℚ) : |(roundHalfEven s : ℚ) - s| ≤ 1 / 2 := by
  have hfs : (⌊s⌋ : ℚ) ≤ s := Int.floor_le s
  have hfs1 : s < ⌊s⌋ + 1 := Int.lt_floor_add_one s
  rw [abs_le]
  rcases lt_trichotomy (s - ⌊s⌋) (1 / 2) with h | h | h
  · rw [roundHalfEven_of_lt s h]
    constructor <;> linarith
  · rw [roundHalfEven_of_eq s h]
    split_ifs
    · constructor <;> linarith
    · push_cast
      constructor <;> linarith
  · rw [roundHalfEven_of_gt s h]
    push_cast
    constructor <;> linarith

/-- The significand produced by rounding has magnitude at most `2 ^ prec`. -/
theorem roundHalfEven_scaled_abs_le (p : ℕ) (e : ℤ) (x : ℚ) (hx : x ≠ 0) :
    |roundHalfEven (x / 2 ^ max (ilog2 x - ((p : ℤ) - 1)) e)| ≤ 2 ^ p := by
  obtain ⟨_, hi⟩ := ilog2_spec x hx
  set u := max (ilog2 x - ((p : ℤ) - 1)) e with hu
  have h2 : (0 : ℚ) < 2 := by norm_num
  have hule : ilog2 x + 1 - u ≤ p := by
    have : ilog2 x - ((p : ℤ) - 1) ≤ u := le_max_left _ _
    omega
  have hq : |x / 2 ^ u| ≤ (((2 : ℤ) ^ p : ℤ) : ℚ) := by
    rw [abs_div, abs_of_pos (two_zpow_pos u), div_le_iff₀ (two_zpow_pos u)]
    push_cast
    rw [← zpow_natCast, ← zpow_add₀ h2.ne']
    exact le_trans (le_of_lt hi) (zpow_le_zpow_right₀ (by norm_num) (by omega))
  rw [abs_le] at hq ⊢
  constructor
  · apply le_roundHalfEven_of_le
    push_cast at hq ⊢
    exact hq.1
  · exact roundHalfEven_le_of_le hq.2

/-- Rounding is idempotent: its results are representable. -/
theorem roundTo_idem (p : ℕ) (hp : 1 ≤ p) (e : ℤ) (x : ℚ) :
    roundTo p e (roundTo p e x) = roundTo p e x := by
  by_cases hx : x = 0
  · rw [hx, roundTo_zero, roundTo_zero]
  have hm := roundHalfEven_scaled_abs_le p e x hx
  have hval : roundTo p e x
      = (roundHalfEven (x / 2 ^ max (ilog2 x - ((p : ℤ) - 1)) e) : ℚ)
        * 2 ^ max (ilog2 x - ((p : ℤ) - 1)) e := by
    unfold roundTo
    simp only [hx, if_false]
  rw [hval]
  set u := max (ilog2 x - ((p : ℤ) - 1)) e with hu
  set mm := roundHalfEven (x / 2 ^ u) with hmm
  have hue : e ≤ u := le_max_right _ _
  have h2 : (0 : ℚ) < 2 := by norm_num
  rcases lt_or_eq_of_le hm with hlt | heq
  · exact roundTo_of_repr p e mm u hlt hue
  · -- the significand is `± 2 ^ p`: the value is `± 2 ^ (p - 1) * 2 ^ (u + 1)`
    obtain ⟨k, rfl⟩ : ∃ k, p = k + 1 := ⟨p - 1, by omega⟩
    have hpow : (0 : ℤ) < 2 ^ k := by positivity
    have hlt : (2 : ℤ) ^ k < 2 ^ (k + 1) := by rw [pow_succ]; omega
    rcases abs_eq (by positivity : (0 : ℤ) ≤ 2 ^ (k + 1)) |>.mp heq with h | h
    · have hrw : (mm : ℚ) * 2 ^ u = (((2 : ℤ) ^ k : ℤ) : ℚ) * 2 ^ (u + 1) := by
        rw [h, zpow_add₀ h2.ne']; push_cast; ring
      rw [hrw]
      exact roundTo_of_repr (k + 1) e (2 ^ k) (u + 1) (by rw [abs_of_pos hpow]; exact hlt)
        (by omega)
    · have hrw : (mm : ℚ) * 2 ^ u = (((-(2 : ℤ) ^ k : ℤ)) : ℚ) * 2 ^ (u + 1) := by
        rw [h, zpow_add₀ h2.ne']; push_cast; ring
      rw [hrw]
      exact roundTo_of_repr (k + 1) e (-2 ^ k) (u + 1)
        (by rw [abs_neg, abs_of_pos hpow]; exact hlt) (by omega)

/-- Rounding error: at most half a unit in the last place, which for `|x| < 2 ^ j` is at most
`2 ^ (j - prec - 1)` as long as `j - prec` is not below the least exponent. -/
theorem roundTo_abs_sub_le (p : ℕ) (e : ℤ) (x : ℚ) (j : ℤ) (hj : e ≤ j - p)
    (hx : |x| < 2 ^ j) : |roundTo p e x - x| ≤ 2 ^ (j - p - 1) := by
  have h2 : (0 : ℚ) < 2 := by norm_num
  by_cases hx0 : x = 0
  · rw [hx0, roundTo_zero]; simp; exact le_of_lt (two_zpow_pos _)
  obtain ⟨lo, _⟩ := ilog2_spec x hx0
  have hlog : ilog2 x < j :=
    (zpow_lt_zpow_iff_right₀ (by norm_num : (1 : ℚ) < 2)).mp (lt_of_le_of_lt lo hx)
  unfold roundTo
  simp only [hx0, if_false]
  set u := max (ilog2 x - ((p : ℤ) - 1)) e with hu
  have huj : u ≤ j - p := max_le (by omega) hj
  have herr := roundHalfEven_abs_sub_le (x / 2 ^ u)
  have hpos := two_zpow_pos u
  have : (roundHalfEven (x / 2 ^ u) : ℚ) * 2 ^ u - x
      = ((roundHalfEven (x / 2 ^ u) : ℚ) - x / 2 ^ u) * 2 ^ u := by
    field_simp
  rw [this, abs_mul, abs_of_pos hpos]
  calc |(roundHalfEven (x / 2 ^ u) : ℚ) - x / 2 ^ u| * 2 ^ u
      ≤ 1 / 2 * 2 ^ u := mul_le_mul_of_nonneg_right herr (le_of_lt hpos)
    _ = 2 ^ (u - 1) := by rw [zpow_sub₀ h2.ne']; simp; ring
    _ ≤ 2 ^ (j - p - 1) := zpow_le_zpow_right₀ (by norm_num) (by omega)

/-! ## Rounding to `float` and `double` -/

theorem f32_mono {x y : ℚ} (h : x ≤ y) : f32 x ≤ f32 y := roundTo_mono 24 (by norm_num) _ h

theorem f64_mono {x y : ℚ} (h : x ≤ y) : f64 x ≤ f64 y := roundTo_mono 53 (by norm_num) _ h

theorem f32_zero : f32 0 = 0 := roundTo_zero _ _

theorem f64_zero : f64 0 = 0 := roundTo_zero _ _

theorem f32_nonneg {x : ℚ} (h : 0 ≤ x) : 0 ≤ f32 x := roundTo_nonneg _ _ h

theorem f64_nonneg {x : ℚ} (h : 0 ≤ x) : 0 ≤ f64 x := roundTo_nonneg _ _ h

/-- Integers of magnitude below `2 ^ 24` are `float` values. -/
theorem f32_intCast (z : ℤ) (h : |z| < 2 ^ 24) : f32 (z : ℚ) = z := by
  have := roundTo_of_repr 24 (-149) z 0 h (by norm_num)
  simpa [f32] using this

theorem f32_idem (x : ℚ) : f32 (f32 x) = f32 x := roundTo_idem 24 (by norm_num) _ x

/-- The `float` rounding error for `|x| < 2 ^ j`. -/
theorem f32_abs_sub_le (x : ℚ) (j : ℤ) (hj : -125 ≤ j) (hx : |x| < 2 ^ j) :
    |f32 x - x| ≤ 2 ^ (j - 25) := by
  have := roundTo_abs_sub_le 24 (-149) x j (by push_cast; omega) hx
  have he : j - ((24 : ℕ) : ℤ) - 1 = j - 25 := by push_cast; ring
  rw [he] at this
  exact this

theorem f32_two_zpow (j : ℤ) (hj : -149 ≤ j) : f32 ((2 : ℚ) ^ j) = 2 ^ j := by
  have := roundTo_of_repr 24 (-149) 1 j (by norm_num) hj
  simpa [f32] using this

/-! ## Values of the constants -/

theorem M_PI_eq : M_PI = 884279719003555 / 281474976710656 := by decide!

theorem twoPi_eq : f64 (2.0 * M_PI) = 884279719003555 / 140737488355328 := by decide!

theorem f32_RAND_MAX : f32 (RAND_MAX : ℚ) = 2147483648 := by decide!

theorem f32_one : f32 1 = 1 := by decide!

/-- The quotient `static_cast<float>(rand()) / RAND_MAX` lies in `[0, 1]`. -/
theorem ratio_bounds {k : ℕ} (hk : k ≤ RAND_MAX) :
    0 ≤ f32 (f32 (k : ℚ) / f32 (RAND_MAX : ℚ)) ∧ f32 (f32 (k : ℚ) / f32 (RAND_MAX : ℚ)) ≤ 1 := by
  have h0 : (0 : ℚ) ≤ f32 (k : ℚ) := f32_nonneg (Nat.cast_nonneg k)
  have h1 : f32 (k : ℚ) ≤ f32 (RAND_MAX : ℚ) := f32_mono (by exact_mod_cast hk)
  rw [f32_RAND_MAX] at h1 ⊢
  constructor
  · exact f32_nonneg (div_nonneg h0 (by norm_num))
  · rw [← f32_one]
    apply f32_mono
    rw [div_le_one (by norm_num)]
    exact h1

/-! ## Asteroid initialisation -/

theorem M_PI_nonneg : 0 ≤ M_PI := by rw [M_PI_eq]; norm_num

theorem asteroidAngle_mono {j k : ℕ} (h : j ≤ k) : asteroidAngle j ≤ asteroidAngle k := by
  unfold asteroidAngle
  apply f32_mono
  apply f64_mono
  apply mul_le_mul_of_nonneg_right _ M_PI_nonneg
  apply f32_mono
  apply mul_le_mul_of_nonneg_right _ (by norm_num)
  apply f32_mono
  rw [f32_RAND_MAX]
  apply div_le_div_of_nonneg_right _ (by norm_num)
  apply f32_mono
  exact_mod_cast h

theorem asteroidAngle_zero : asteroidAngle 0 = 0 := by decide!

theorem asteroidAngle_RAND_MAX : asteroidAngle RAND_MAX = 13176795 / 2097152 := by decide!

theorem asteroidAngle_bounds {k : ℕ} (hk : k ≤ RAND_MAX) :
    0 ≤ asteroidAngle k ∧ asteroidAngle k ≤ 13176795 / 2097152 := by
  constructor
  · rw [← asteroidAngle_zero]; exact asteroidAngle_mono (Nat.zero_le k)
  · rw [← asteroidAngle_RAND_MAX]; exact asteroidAngle_mono hk

theorem f32_three_halves : f32 1.5 = 1.5 := by decide!

theorem f32_five_halves : f32 2.5 = 2.5 := by decide!

/-- The factor `1.5f + static_cast<float>(rand()) / RAND_MAX` lies in `[1.5, 2.5]`. -/
theorem speedFactor_bounds {k : ℕ} (hk : k ≤ RAND_MAX) :
    1.5 ≤ speedFactor k ∧ speedFactor k ≤ 2.5 := by
  obtain ⟨h0, h1⟩ := ratio_bounds hk
  unfold speedFactor
  constructor
  · conv_lhs => rw [← f32_three_halves]
    exact f32_mono (by linarith)
  · conv_rhs => rw [← f32_five_halves]
    exact f32_mono (by norm_num; linarith)

theorem asteroidSpeed_bounds (p : Planet) (hp : 0 ≤ p.orbitSpeed) {k : ℕ} (hk : k ≤ RAND_MAX) :
    f32 (1.5 * p.orbitSpeed) ≤ asteroidSpeed p k ∧
      asteroidSpeed p k ≤ f32 (2.5 * p.orbitSpeed) := by
  obtain ⟨h0, h1⟩ := speedFactor_bounds hk
  unfold asteroidSpeed
  constructor
  · apply f32_mono
    rw [mul_comm]
    exact mul_le_mul_of_nonneg_left h0 hp
  · apply f32_mono
    rw [mul_comm (2.5 : ℚ)]
    exact mul_le_mul_of_nonneg_left h1 hp

theorem planets_speed_facts : ∀ p ∈ planets,
    0 ≤ p.orbitSpeed ∧ 0 < f32 (1.5 * p.orbitSpeed) ∧
      f32 (2.5 * p.orbitSpeed) ≤ 3355443 / 67108864 := by decide!

/-! ## The asteroid update -/

/-- One update keeps a non-negative angle non-negative and brings it to at most
`2.0f * M_PI`, whenever the angle before is at most the `float` nearest to `2π` and the speed is
one the initialisation can produce. -/
theorem updateAsteroid_angle_bounds (m : Libm) (a : Asteroid)
    (ha0 : 0 ≤ a.angle) (ha1 : a.angle ≤ 13176795 / 2097152)
    (hs0 : 0 ≤ a.orbitSpeed) (hs1 : a.orbitSpeed ≤ 3355443 / 67108864) :
    0 ≤ (updateAsteroid m a).angle ∧ (updateAsteroid m a).angle ≤ f64 (2.0 * M_PI) := by
  have hsum0 : 0 ≤ f32 (a.angle + a.orbitSpeed) := f32_nonneg (by linarith)
  have hsum1 : f32 (a.angle + a.orbitSpeed) ≤ f32 (13176795 / 2097152 + 3355443 / 67108864) :=
    f32_mono (by linarith)
  have hc1 : f32 (13176795 / 2097152 + 3355443 / 67108864) = 13281653 / 2097152 := by decide!
  have hc2 : f32 (f64 (13281653 / 2097152 - 884279719003555 / 140737488355328))
      = 13421871 / 268435456 := by decide!
  rw [hc1] at hsum1
  unfold updateAsteroid
  simp only
  rw [twoPi_eq]
  split_ifs with h
  · constructor
    · exact f32_nonneg (f64_nonneg (by linarith))
    · calc f32 (f64 (f32 (a.angle + a.orbitSpeed) - 884279719003555 / 140737488355328))
          ≤ f32 (f64 (13281653 / 2097152 - 884279719003555 / 140737488355328)) :=
            f32_mono (f64_mono (by linarith))
        _ = 13421871 / 268435456 := hc2
        _ ≤ 884279719003555 / 140737488355328 := by norm_num
  · exact ⟨hsum0, le_of_not_lt h⟩

/-! ## Comparison with the real number `π` -/

/-- The threshold `2.0f * M_PI` of the wrap test is below `2π`. -/
theorem twoPi_lt_real : ((f64 (2.0 * M_PI) : ℚ) : ℝ) < 2 * Real.pi := by
  rw [twoPi_eq]
  have := Real.pi_gt_d20
  push_cast
  norm_num at this ⊢
  linarith

/-- The `float` nearest to `2π` is above `2π`. -/
theorem real_twoPi_lt_float : 2 * Real.pi < ((13176795 / 2097152 : ℚ) : ℝ) := by
  have := Real.pi_lt_d20
  push_cast
  norm_num at this ⊢
  linarith

/-! ## The scene after `N` frames -/

theorem frames_asteroids (m : Libm) (N : ℕ) (s : Scene) :
    (frames m N s).asteroidsPerOrbit
      = s.asteroidsPerOrbit.map (List.map (updateAsteroid m)^[N]) := by
  induction N generalizing s with
  | zero => simp [frames]
  | succ n ih =>
    rw [frames, ih]
    simp [frame, List.map_map, Function.iterate_succ]

theorem frames_planets (m : Libm) (N : ℕ) (s : Scene) :
    (frames m N s).planets = s.planets.map updatePlanet^[N] := by
  induction N generalizing s with
  | zero => simp [frames]
  | succ n ih =>
    rw [frames, ih]
    simp [frame, List.map_map, Function.iterate_succ]

theorem frames_stars (m : Libm) (N : ℕ) (s : Scene) : (frames m N s).stars = s.stars := by
  induction N generalizing s with
  | zero => simp [frames]
  | succ n ih => rw [frames, ih]; simp [frame]

/-- Every asteroid of the initial scene was made by `mkAsteroid` from a planet of the list and
two results of `rand()`. -/
theorem mem_initAsteroidsFrom (rand : ℕ → ℕ) (ps : List Planet) :
    ∀ (c : ℕ), ∀ g ∈ initAsteroidsFrom rand c ps, ∀ a ∈ g,
      ∃ p ∈ ps, ∃ i j : ℕ, a = mkAsteroid p (rand i) (rand j) := by
  induction ps with
  | nil => intro c g hg; simp [initAsteroidsFrom] at hg
  | cons p ps ih =>
    intro c g hg a ha
    rw [initAsteroidsFrom, List.mem_cons] at hg
    rcases hg with rfl | hg
    · rw [List.mem_map] at ha
      obtain ⟨k, _, rfl⟩ := ha
      exact ⟨p, List.mem_cons_self _ _, _, _, rfl⟩
    · obtain ⟨q, hq, i, j, h⟩ := ih _ g hg a ha
      exact ⟨q, List.mem_cons_of_mem _ hq, i, j, h⟩

theorem iterate_updateAsteroid_orbitSpeed (m : Libm) (N : ℕ) (a : Asteroid) :
    ((updateAsteroid m)^[N] a).orbitSpeed = a.orbitSpeed := by
  induction N with
  | zero => rfl
  | succ n ih => rw [Function.iterate_succ_apply']; simpa [updateAsteroid] using ih

theorem iterate_updateAsteroid_orbitRadius (m : Libm) (N : ℕ) (a : Asteroid) :
    ((updateAsteroid m)^[N] a).orbitRadius = a.orbitRadius := by
  induction N with
  | zero => rfl
  | succ n ih => rw [Function.iterate_succ_apply']; simpa [updateAsteroid] using ih

/-- The wrap invariant along the updates of one asteroid. -/
theorem iterate_updateAsteroid_angle (m : Libm) (a : Asteroid)
    (ha0 : 0 ≤ a.angle) (ha1 : a.angle ≤ 13176795 / 2097152)
    (hs0 : 0 ≤ a.orbitSpeed) (hs1 : a.orbitSpeed ≤ 3355443 / 67108864) (N : ℕ) :
    0 ≤ ((updateAsteroid m)^[N] a).angle ∧
      ((updateAsteroid m)^[N] a).angle ≤ 13176795 / 2097152 ∧
      (1 ≤ N → ((updateAsteroid m)^[N] a).angle ≤ f64 (2.0 * M_PI)) := by
  induction N with
  | zero => exact ⟨ha0, ha1, fun h => absurd h (by norm_num)⟩
  | succ n ih =>
    rw [Function.iterate_succ_apply']
    obtain ⟨h0, h1, _⟩ := ih
    have hs := iterate_updateAsteroid_orbitSpeed m n a
    obtain ⟨r0, r1⟩ := updateAsteroid_angle_bounds m _ h0 h1 (by rw [hs]; exact hs0)
      (by rw [hs]; exact hs1)
    refine ⟨r0, le_trans r1 ?_, fun _ => r1⟩
    rw [twoPi_eq]; norm_num

theorem sampleRand_le (n : ℕ) : sampleRand n ≤ RAND_MAX := by
  unfold sampleRand RAND_MAX
  omega

/-- C1 (amended). Wrap invariant of asteroids: for every asteroid produced by the
initialisation (all `rand()` results in `0 .. RAND_MAX`) and every number `N` of frames, the
angle is at least `0` and at most the `float` nearest to `2π`; after at least one frame it is
below `2π` (it is at most the threshold `2.0f * M_PI`). -/
theorem asteroid_angle_wrap (m : Libm) (rand : ℕ → ℕ) (hrand : ∀ n, rand n ≤ RAND_MAX)
    (N : ℕ) :
    ∀ g ∈ (frames m N (initScene rand)).asteroidsPerOrbit, ∀ a ∈ g,
      0 ≤ a.angle ∧ a.angle ≤ 13176795 / 2097152 ∧
        (1 ≤ N → a.angle ≤ f64 (2.0 * M_PI) ∧ (a.angle : ℝ) < 2 * Real.pi) := by
  intro g hg a ha
  rw [frames_asteroids, List.mem_map] at hg
  obtain ⟨g0, hg0, rfl⟩ := hg
  rw [List.mem_map] at ha
  obtain ⟨a0, ha0, rfl⟩ := ha
  obtain ⟨p, hp, i, j, rfl⟩ := mem_initAsteroidsFrom rand planets _ g0 hg0 a0 ha0
  obtain ⟨hp0, _, hp2⟩ := planets_speed_facts p hp
  obtain ⟨hk0, hk1⟩ := asteroidAngle_bounds (hrand i)
  obtain ⟨hv0, hv1⟩ := asteroidSpeed_bounds p hp0 (hrand j)
  have hspeed0 : 0 ≤ asteroidSpeed p (rand j) :=
    le_trans (f32_nonneg (mul_nonneg (by norm_num) hp0)) hv0
  obtain ⟨r0, r1, r2⟩ := iterate_updateAsteroid_angle m (mkAsteroid p (rand i) (rand j))
    hk0 hk1 hspeed0 (le_trans hv1 hp2) N
  refine ⟨r0, r1, fun hN => ⟨r2 hN, ?_⟩⟩
  have : (((updateAsteroid m)^[N] (mkAsteroid p (rand i) (rand j))).angle : ℝ)
      ≤ ((f64 (2.0 * M_PI) : ℚ) : ℝ) := by exact_mod_cast r2 hN
  exact lt_of_le_of_lt this twoPi_lt_real

theorem asteroid_angle_wrap_witness :
    (∀ n, sampleRand n ≤ RAND_MAX) ∧
      ∀ g ∈ (frames (constLibm 0) 3 (initScene sampleRand)).asteroidsPerOrbit, ∀ a ∈ g,
        0 ≤ a.angle ∧ a.angle ≤ 13176795 / 2097152 ∧
          (1 ≤ 3 → a.angle ≤ f64 (2.0 * M_PI) ∧ (a.angle : ℝ) < 2 * Real.pi) :=
  ⟨sampleRand_le, asteroid_angle_wrap (constLibm 0) sampleRand sampleRand_le 3⟩

/-- C1 (as stated) fails before the first update: when `rand()` returns `RAND_MAX` for the
angle, the asteroid starts at the `float` nearest to `2π`, which is not below `2π`. -/
theorem asteroid_angle_wrap_fails :
    ∃ g ∈ (frames (constLibm 0) 0 (initScene fun _ => RAND_MAX)).asteroidsPerOrbit, ∃ a ∈ g,
      ¬ (0 ≤ a.angle ∧ (a.angle : ℝ) < 2 * Real.pi) := by
  have h : ∃ g ∈ (frames (constLibm 0) 0 (initScene fun _ => RAND_MAX)).asteroidsPerOrbit,
      ∃ a ∈ g, a.angle = 13176795 / 2097152 := by decide!
  obtain ⟨g, hg, a, ha, hval⟩ := h
  refine ⟨g, hg, a, ha, ?_⟩
  rw [hval]
  intro hcon
  exact absurd hcon.2 (not_lt.mpr (le_of_lt real_twoPi_lt_float))

/-! ## Stars -/

theorem f32_half : f32 0.5 = 0.5 := by decide!

theorem star_divisors :
    f32 (f32 (RAND_MAX : ℚ) / 0.5) = 4294967296 ∧
      f32 (f64 (f64 (RAND_MAX : ℚ) / f64 (2.0 * M_PI))) = 341782624 := by decide!

theorem mkStar_baseBrightness_bounds (kx ky kp : ℕ) {kb : ℕ} (hkb : kb ≤ RAND_MAX) :
    0.5 ≤ (mkStar kx ky kb kp).baseBrightness ∧ (mkStar kx ky kb kp).baseBrightness ≤ 1.0 := by
  have h0 : (0 : ℚ) ≤ f32 (kb : ℚ) := f32_nonneg (Nat.cast_nonneg kb)
  have h1 : f32 (kb : ℚ) ≤ f32 (RAND_MAX : ℚ) := f32_mono (by exact_mod_cast hkb)
  rw [f32_RAND_MAX] at h1
  have hq0 : 0 ≤ f32 (f32 (kb : ℚ) / 4294967296) := f32_nonneg (div_nonneg h0 (by norm_num))
  have hq1 : f32 (f32 (kb : ℚ) / 4294967296) ≤ 0.5 := by
    conv_rhs => rw [← f32_half]
    apply f32_mono
    rw [div_le_iff₀ (by norm_num)]
    norm_num
    linarith
  simp only [mkStar, star_divisors.1]
  constructor
  · conv_lhs => rw [← f32_half]
    exact f32_mono (by linarith)
  · have : (1.0 : ℚ) = f32 1 := by rw [f32_one]; norm_num
    rw [this]
    exact f32_mono (by norm_num at hq1 ⊢; linarith)

theorem mkStar_twinklePhase_mono (kx ky kb : ℕ) {j k : ℕ} (h : j ≤ k) :
    (mkStar kx ky kb j).twinklePhase ≤ (mkStar kx ky kb k).twinklePhase := by
  simp only [mkStar, star_divisors.2]
  apply f32_mono
  apply div_le_div_of_nonneg_right _ (by norm_num)
  apply f32_mono
  exact_mod_cast h

theorem mkStar_twinklePhase_values :
    (mkStar 0 0 0 0).twinklePhase = 0 ∧
      (mkStar 0 0 0 (RAND_MAX - 64)).twinklePhase = 6588397 / 1048576 ∧
      (mkStar 0 0 0 RAND_MAX).twinklePhase = 13176795 / 2097152 := by decide!

theorem mkStar_twinklePhase_indep (kx ky kb kp : ℕ) :
    (mkStar kx ky kb kp).twinklePhase = (mkStar 0 0 0 kp).twinklePhase := rfl

/-- The parameter ranges of one generated star. -/
theorem mkStar_parameter_ranges (kx ky kb kp : ℕ) (hkb : kb ≤ RAND_MAX) (hkp : kp ≤ RAND_MAX) :
    0.5 ≤ (mkStar kx ky kb kp).baseBrightness ∧ (mkStar kx ky kb kp).baseBrightness ≤ 1.0 ∧
      0 ≤ (mkStar kx ky kb kp).twinklePhase ∧
      (mkStar kx ky kb kp).twinklePhase ≤ 13176795 / 2097152 ∧
      (kp ≤ RAND_MAX - 64 → ((mkStar kx ky kb kp).twinklePhase : ℝ) < 2 * Real.pi) := by
  obtain ⟨hb0, hb1⟩ := mkStar_baseBrightness_bounds kx ky kp hkb
  obtain ⟨v0, v1, v2⟩ := mkStar_twinklePhase_values
  refine ⟨hb0, hb1, ?_, ?_, ?_⟩
  · rw [mkStar_twinklePhase_indep, ← v0]
    exact mkStar_twinklePhase_mono 0 0 0 (Nat.zero_le kp)
  · rw [mkStar_twinklePhase_indep, ← v2]
    exact mkStar_twinklePhase_mono 0 0 0 hkp
  · intro h
    have h1 : (mkStar kx ky kb kp).twinklePhase ≤ 6588397 / 1048576 := by
      rw [mkStar_twinklePhase_indep, ← v1]
      exact mkStar_twinklePhase_mono 0 0 0 h
    have h2 : (((mkStar kx ky kb kp).twinklePhase : ℚ) : ℝ) ≤ ((6588397 / 1048576 : ℚ) : ℝ) := by
      exact_mod_cast h1
    have h3 := Real.pi_gt_d20
    push_cast at h2
    norm_num at h2 h3
    linarith

theorem mem_initStars (rand : ℕ → ℕ) (s : Star) (hs : s ∈ initStars rand) :
    ∃ i : ℕ, i < NUM_STARS ∧
      s = mkStar (rand (4 * i)) (rand (4 * i + 1)) (rand (4 * i + 2)) (rand (4 * i + 3)) := by
  unfold initStars at hs
  rw [List.mem_map] at hs
  obtain ⟨i, hi, rfl⟩ := hs
  exact ⟨i, List.mem_range.mp hi, rfl⟩

theorem initStars_head (rand : ℕ → ℕ) :
    mkStar (rand 0) (rand 1) (rand 2) (rand 3) ∈ initStars rand := by
  unfold initStars
  rw [List.mem_map]
  exact ⟨0, List.mem_range.mpr (by decide), rfl⟩

/-- C6 (amended). Star parameter ranges: for `rand()` results `kb, kp ≤ RAND_MAX` the generated
star has `baseBrightness` in `[0.5, 1.0]` and `twinklePhase` in the closed interval from `0` to
the `float` nearest to `2π`; the phase is below `2π` when `kp ≤ RAND_MAX - 64`.  The same bounds
hold for every star of the scene, at the start and after any number of frames. -/
theorem star_parameter_ranges :
    (∀ kx ky kb kp : ℕ, kb ≤ RAND_MAX → kp ≤ RAND_MAX →
      0.5 ≤ (mkStar kx ky kb kp).baseBrightness ∧ (mkStar kx ky kb kp).baseBrightness ≤ 1.0 ∧
        0 ≤ (mkStar kx ky kb kp).twinklePhase ∧
        (mkStar kx ky kb kp).twinklePhase ≤ 13176795 / 2097152 ∧
        (kp ≤ RAND_MAX - 64 → ((mkStar kx ky kb kp).twinklePhase : ℝ) < 2 * Real.pi)) ∧
      ∀ (m : Libm) (rand : ℕ → ℕ), (∀ n, rand n ≤ RAND_MAX) → ∀ N : ℕ,
        ∀ s ∈ (frames m N (initScene rand)).stars,
          0.5 ≤ s.baseBrightness ∧ s.baseBrightness ≤ 1.0 ∧
            0 ≤ s.twinklePhase ∧ s.twinklePhase ≤ 13176795 / 2097152 := by
  refine ⟨fun kx ky kb kp hkb hkp => mkStar_parameter_ranges kx ky kb kp hkb hkp, ?_⟩
  intro m rand hrand N s hs
  rw [frames_stars] at hs
  obtain ⟨i, _, rfl⟩ := mem_initStars rand s hs
  obtain ⟨h1, h2, h3, h4, _⟩ := mkStar_parameter_ranges (rand (4 * i)) (rand (4 * i + 1))
    (rand (4 * i + 2)) (rand (4 * i + 3)) (hrand _) (hrand _)
  exact ⟨h1, h2, h3, h4⟩

theorem star_parameter_ranges_witness :
    (1000 ≤ RAND_MAX ∧ 2000 ≤ RAND_MAX ∧
      0.5 ≤ (mkStar 1 2 1000 2000).baseBrightness ∧
      (mkStar 1 2 1000 2000).twinklePhase ≤ 13176795 / 2097152) ∧
    ((∀ n, sampleRand n ≤ RAND_MAX) ∧
      mkStar (sampleRand 0) (sampleRand 1) (sampleRand 2) (sampleRand 3)
        ∈ (frames (constLibm 0) 2 (initScene sampleRand)).stars ∧
      (mkStar (sampleRand 0) (sampleRand 1) (sampleRand 2) (sampleRand 3)).twinklePhase
        ≤ 13176795 / 2097152) :=
  have h1 : 1000 ≤ RAND_MAX := by decide
  have h2 : 2000 ≤ RAND_MAX := by decide
  have h := star_parameter_ranges.1 1 2 1000 2000 h1 h2
  have hmem : mkStar (sampleRand 0) (sampleRand 1) (sampleRand 2) (sampleRand 3)
      ∈ (frames (constLibm 0) 2 (initScene sampleRand)).stars := by
    rw [frames_stars]; exact initStars_head sampleRand
  have h' := star_parameter_ranges.2 (constLibm 0) sampleRand sampleRand_le 2 _ hmem
  ⟨⟨h1, h2, h.1, h.2.2.2.1⟩, sampleRand_le, hmem, h'.2.2.2⟩

/-- C6 (as stated) fails: when `rand()` returns `RAND_MAX` for the phase, `twinklePhase` is the
`float` nearest to `2π`, which is not below `2π`. -/
theorem star_twinklePhase_reaches_two_pi :
    ∃ s ∈ initStars (fun _ => RAND_MAX), ¬ ((s.twinklePhase : ℝ) < 2 * Real.pi) := by
  have h : ∃ s ∈ initStars (fun _ => RAND_MAX), s.twinklePhase = 13176795 / 2097152 := by
    decide!
  obtain ⟨s, hs, hval⟩ := h
  refine ⟨s, hs, ?_⟩
  rw [hval]
  exact not_lt.mpr (le_of_lt real_twoPi_lt_float)

theorem star_offsets : f32 (f32 (WIDTH : ℚ) / 2.0) = 400 ∧ f32 (f32 (HEIGHT : ℚ) / 2.0) = 400 := by
  decide!

/-- The `float` computation `(float)(k % 800) - 800 / 2.0f` is exact. -/
theorem star_coordinate (k : ℕ) :
    f32 (f32 (((k : ℤ) % 800 : ℤ) : ℚ) - 400) = ((((k : ℤ) % 800 - 400 : ℤ)) : ℚ) := by
  have h0 : 0 ≤ (k : ℤ) % 800 := Int.emod_nonneg _ (by norm_num)
  have h1 : (k : ℤ) % 800 < 800 := Int.emod_lt_of_pos _ (by norm_num)
  rw [f32_intCast _ (by rw [abs_lt]; constructor <;> omega)]
  rw [← f32_intCast ((k : ℤ) % 800 - 400) (by rw [abs_lt]; constructor <;> omega)]
  push_cast
  rfl

/-- The position of one generated star. -/
theorem mkStar_position_range (kx ky kb kp : ℕ) :
    (-400 ≤ (mkStar kx ky kb kp).x ∧ (mkStar kx ky kb kp).x < 400 ∧
      -400 ≤ (mkStar kx ky kb kp).y ∧ (mkStar kx ky kb kp).y < 400) ∧
    ((orthoLeft : ℚ) ≤ (mkStar kx ky kb kp).x ∧ (mkStar kx ky kb kp).x < (orthoRight : ℚ) ∧
      (orthoBottom : ℚ) ≤ (mkStar kx ky kb kp).y ∧ (mkStar kx ky kb kp).y < (orthoTop : ℚ)) ∧
    (mkStar kx ky kb kp).x = (((kx % 800 : ℕ) : ℚ) - 400) ∧
    (mkStar kx ky kb kp).y = (((ky % 800 : ℕ) : ℚ) - 400) := by
  have hx : (mkStar kx ky kb kp).x = ((((kx : ℤ) % 800 - 400 : ℤ)) : ℚ) := by
    simp only [mkStar, star_offsets.1]
    exact star_coordinate kx
  have hy : (mkStar kx ky kb kp).y = ((((ky : ℤ) % 800 - 400 : ℤ)) : ℚ) := by
    simp only [mkStar, star_offsets.2]
    exact star_coordinate ky
  have hx0 : 0 ≤ (kx : ℤ) % 800 := Int.emod_nonneg _ (by norm_num)
  have hx1 : (kx : ℤ) % 800 < 800 := Int.emod_lt_of_pos _ (by norm_num)
  have hy0 : 0 ≤ (ky : ℤ) % 800 := Int.emod_nonneg _ (by norm_num)
  have hy1 : (ky : ℤ) % 800 < 800 := Int.emod_lt_of_pos _ (by norm_num)
  have hol : orthoLeft = -400 := by decide
  have hor : orthoRight = 400 := by decide
  have hob : orthoBottom = -400 := by decide
  have hot : orthoTop = 400 := by decide
  have bx0 : (-400 : ℚ) ≤ ((((kx : ℤ) % 800 - 400 : ℤ)) : ℚ) := by
    have : (-400 : ℤ) ≤ (kx : ℤ) % 800 - 400 := by omega
    exact_mod_cast this
  have bx1 : ((((kx : ℤ) % 800 - 400 : ℤ)) : ℚ) < 400 := by
    have : (kx : ℤ) % 800 - 400 < 400 := by omega
    exact_mod_cast this
  have by0 : (-400 : ℚ) ≤ ((((ky : ℤ) % 800 - 400 : ℤ)) : ℚ) := by
    have : (-400 : ℤ) ≤ (ky : ℤ) % 800 - 400 := by omega
    exact_mod_cast this
  have by1 : ((((ky : ℤ) % 800 - 400 : ℤ)) : ℚ) < 400 := by
    have : (ky : ℤ) % 800 - 400 < 400 := by omega
    exact_mod_cast this
  rw [hx, hy, hol, hor, hob, hot]
  refine ⟨⟨bx0, bx1, by0, by1⟩, ⟨?_, ?_, ?_, ?_⟩, ?_, ?_⟩
  · exact_mod_cast bx0
  · exact_mod_cast bx1
  · exact_mod_cast by0
  · exact_mod_cast by1
  · push_cast; rfl
  · push_cast; rfl

/-- C7. Star position range: for all `rand()` results the generated star has
`x = rand % 800 - 400` and `y = rand % 800 - 400`, so `-400 ≤ x < 400` and `-400 ≤ y < 400`,
which are the bounds `glOrtho` receives; the same holds for every star of the scene, at the
start and after any number of frames. -/
theorem star_position_range :
    (∀ kx ky kb kp : ℕ,
      (-400 ≤ (mkStar kx ky kb kp).x ∧ (mkStar kx ky kb kp).x < 400 ∧
        -400 ≤ (mkStar kx ky kb kp).y ∧ (mkStar kx ky kb kp).y < 400) ∧
      ((orthoLeft : ℚ) ≤ (mkStar kx ky kb kp).x ∧ (mkStar kx ky kb kp).x < (orthoRight : ℚ) ∧
        (orthoBottom : ℚ) ≤ (mkStar kx ky kb kp).y ∧ (mkStar kx ky kb kp).y < (orthoTop : ℚ)) ∧
      (mkStar kx ky kb kp).x = (((kx % 800 : ℕ) : ℚ) - 400) ∧
      (mkStar kx ky kb kp).y = (((ky % 800 : ℕ) : ℚ) - 400)) ∧
    ∀ (m : Libm) (rand : ℕ → ℕ) (N : ℕ), ∀ s ∈ (frames m N (initScene rand)).stars,
      -400 ≤ s.x ∧ s.x < 400 ∧ -400 ≤ s.y ∧ s.y < 400 := by
  refine ⟨fun kx ky kb kp => mkStar_position_range kx ky kb kp, ?_⟩
  intro m rand N s hs
  rw [frames_stars] at hs
  obtain ⟨i, _, rfl⟩ := mem_initStars rand s hs
  exact (mkStar_position_range _ _ _ _).1

theorem star_position_range_witness :
    mkStar (sampleRand 0) (sampleRand 1) (sampleRand 2) (sampleRand 3)
        ∈ (frames (constLibm 0) 2 (initScene sampleRand)).stars ∧
      -400 ≤ (mkStar (sampleRand 0) (sampleRand 1) (sampleRand 2) (sampleRand 3)).x ∧
      (mkStar (sampleRand 0) (sampleRand 1) (sampleRand 2) (sampleRand 3)).x < 400 :=
  have hmem : mkStar (sampleRand 0) (sampleRand 1) (sampleRand 2) (sampleRand 3)
      ∈ (frames (constLibm 0) 2 (initScene sampleRand)).stars := by
    rw [frames_stars]; exact initStars_head sampleRand
  have h := star_position_range.2 (constLibm 0) sampleRand 2 _ hmem
  ⟨hmem, h.1, h.2.1⟩

/-! ## Brightness -/

theorem brightness_constants :
    f32 0.3 = 5033165 / 16777216 ∧
      f32 0.2 = 13421773 / 67108864 ∧
      f32 (f64 (f32 0.8 + f64 (f32 0.2 * (-1)))) = 5033165 / 8388608 ∧
      f32 (f64 (f32 0.8 + f64 (f32 0.2 * 1))) = 1 := by decide!

theorem drawStar_bounds (m : Libm) (star : Star) (time : ℚ) :
    f32 0.3 ≤ drawStar m star time ∧ drawStar m star time ≤ 1.0 := by
  have h := brightness_constants.1
  unfold drawStar stdMax stdMin
  simp only
  rw [h]
  constructor
  · split_ifs <;> first | exact le_rfl | (apply le_of_lt; assumption)
  · split_ifs with h1 h2 h3
    · exact le_of_lt h1
    · norm_num
    · exact le_rfl
    · norm_num

theorem sunBrightness_bounds (m : Libm) (hsin : ∀ x, -1 ≤ m.sin x ∧ m.sin x ≤ 1) (elapsed : ℚ) :
    5033165 / 8388608 ≤ sunBrightness m elapsed ∧ sunBrightness m elapsed ≤ 1 := by
  obtain ⟨_, h2, hlo, hhi⟩ := brightness_constants
  obtain ⟨s0, s1⟩ := hsin (f64 (elapsed * 5.0))
  have hpos : (0 : ℚ) ≤ f32 0.2 := by rw [h2]; norm_num
  unfold sunBrightness
  constructor
  · rw [← hlo]
    apply f32_mono
    apply f64_mono
    apply add_le_add_left
    apply f64_mono
    exact mul_le_mul_of_nonneg_left s0 hpos
  · rw [← hhi]
    apply f32_mono
    apply f64_mono
    apply add_le_add_left
    apply f64_mono
    exact mul_le_mul_of_nonneg_left s1 hpos

/-- C3. Brightness bounds: for every star and every elapsed time the brightness `drawStar`
computes for `time = (float)elapsed * 5.0f` lies in `[0.3, 1.0]`, and the sun brightness lies in
`[0.6, 1.0]`, for every math library whose `sin` stays within `[-1, 1]`. -/
theorem brightness_bounds (m : Libm) (hsin : ∀ x, -1 ≤ m.sin x ∧ m.sin x ≤ 1)
    (star : Star) (elapsed : ℚ) :
    (0.3 ≤ drawStar m star (starTime elapsed) ∧ drawStar m star (starTime elapsed) ≤ 1.0) ∧
      (0.6 ≤ sunBrightness m elapsed ∧ sunBrightness m elapsed ≤ 1.0) := by
  obtain ⟨a0, a1⟩ := drawStar_bounds m star (starTime elapsed)
  obtain ⟨b0, b1⟩ := sunBrightness_bounds m hsin elapsed
  rw [brightness_constants.1] at a0
  refine ⟨⟨?_, a1⟩, ⟨?_, ?_⟩⟩
  · norm_num at a0 ⊢; linarith
  · norm_num at b0 ⊢; linarith
  · norm_num at b1 ⊢; linarith

theorem brightness_bounds_witness :
    (∀ x, -1 ≤ (constLibm 1).sin x ∧ (constLibm 1).sin x ≤ 1) ∧
      (0.3 ≤ drawStar (constLibm 1) (mkStar 1 2 3 4) (starTime 7) ∧
        drawStar (constLibm 1) (mkStar 1 2 3 4) (starTime 7) ≤ 1.0) ∧
      (0.6 ≤ sunBrightness (constLibm 1) 7 ∧ sunBrightness (constLibm 1) 7 ≤ 1.0) :=
  have h : ∀ x, -1 ≤ (constLibm 1).sin x ∧ (constLibm 1).sin x ≤ 1 :=
    fun _ => ⟨by simp [constLibm], by simp [constLibm]⟩
  ⟨h, brightness_bounds (constLibm 1) h (mkStar 1 2 3 4) 7⟩

/-! ## Frame effect on the asteroids -/

theorem initAsteroidsFrom_orbitRadius (rand : ℕ → ℕ) (ps : List Planet) :
    ∀ c : ℕ, (initAsteroidsFrom rand c ps).map (List.map Asteroid.orbitRadius)
      = ps.map fun p => List.replicate ASTEROIDS_PER_ORBIT p.orbitRadius := by
  induction ps with
  | nil => intro c; simp [initAsteroidsFrom]
  | cons p ps ih =>
    intro c
    rw [initAsteroidsFrom, List.map_cons, List.map_cons, ih, List.map_map]
    congr 1

/-- C4. Asteroid `orbitRadius` is frozen: after any number of frames every asteroid of group
`i` has the `orbitRadius` of `planets[i]` (ten asteroids per planet), and every asteroid still
has the `orbitSpeed` it was created with. -/
theorem asteroid_orbitRadius_frozen (m : Libm) (rand : ℕ → ℕ) (N : ℕ) :
    (frames m N (initScene rand)).asteroidsPerOrbit.map (List.map Asteroid.orbitRadius)
        = planets.map (fun p => List.replicate ASTEROIDS_PER_ORBIT p.orbitRadius) ∧
      (frames m N (initScene rand)).asteroidsPerOrbit.map (List.map Asteroid.orbitSpeed)
        = (initScene rand).asteroidsPerOrbit.map (List.map Asteroid.orbitSpeed) := by
  have hr : Asteroid.orbitRadius ∘ (updateAsteroid m)^[N] = Asteroid.orbitRadius :=
    funext fun a => iterate_updateAsteroid_orbitRadius m N a
  have hs : Asteroid.orbitSpeed ∘ (updateAsteroid m)^[N] = Asteroid.orbitSpeed :=
    funext fun a => iterate_updateAsteroid_orbitSpeed m N a
  rw [frames_asteroids]
  constructor
  · rw [List.map_map]
    have : (List.map Asteroid.orbitRadius ∘ List.map (updateAsteroid m)^[N])
        = List.map Asteroid.orbitRadius := by
      funext g; simp [List.map_map, hr]
    rw [this]
    exact initAsteroidsFrom_orbitRadius rand planets _
  · rw [List.map_map]
    have : (List.map Asteroid.orbitSpeed ∘ List.map (updateAsteroid m)^[N])
        = List.map Asteroid.orbitSpeed := by
      funext g; simp [List.map_map, hs]
    rw [this]

/-! ## Planets -/

theorem planetAngle_succ (speed : ℚ) (n : ℕ) (a : ℚ) :
    planetAngle speed (n + 1) a = f32 (planetAngle speed n a + speed) := by
  unfold planetAngle
  rw [Function.iterate_succ_apply']

theorem iterate_updatePlanet (N : ℕ) (p : Planet) :
    updatePlanet^[N] p = { p with angle := planetAngle p.orbitSpeed N p.angle } := by
  induction N with
  | zero => rfl
  | succ n ih =>
    rw [Function.iterate_succ_apply', ih, planetAngle_succ]
    rfl

theorem planetAngle_float (speed : ℚ) (n : ℕ) (a : ℚ) (ha : f32 a = a) :
    f32 (planetAngle speed n a) = planetAngle speed n a := by
  cases n with
  | zero => exact ha
  | succ n => rw [planetAngle_succ, f32_idem]

theorem planetAngle_le_succ (speed : ℚ) (hs : 0 ≤ speed) (n : ℕ) (a : ℚ) (ha : f32 a = a) :
    planetAngle speed n a ≤ planetAngle speed (n + 1) a := by
  rw [planetAngle_succ]
  conv_lhs => rw [← planetAngle_float speed n a ha]
  exact f32_mono (by linarith)

theorem planetAngle_nonneg (speed : ℚ) (hs : 0 ≤ speed) (n : ℕ) (a : ℚ) (ha0 : 0 ≤ a) :
    0 ≤ planetAngle speed n a := by
  induction n with
  | zero => exact ha0
  | succ n ih => rw [planetAngle_succ]; exact f32_nonneg (by linarith)

/-- Accumulated rounding error of the planet angle while it stays below `2 ^ j`. -/
theorem planetAngle_error (speed : ℚ) (hs : 0 ≤ speed) (a : ℚ) (ha0 : 0 ≤ a) (ha : f32 a = a)
    (j : ℤ) (hj : -125 ≤ j) :
    ∀ n : ℕ, planetAngle speed n a < 2 ^ j →
      |planetAngle speed n a - (a + n * speed)| ≤ n * 2 ^ (j - 25) := by
  intro n
  induction n with
  | zero => intro _; simp [planetAngle]
  | succ n ih =>
    intro hlt
    have hmono := planetAngle_le_succ speed hs n a ha
    have hprev := ih (lt_of_le_of_lt hmono hlt)
    have hy0 : 0 ≤ planetAngle speed n a + speed :=
      add_nonneg (planetAngle_nonneg speed hs n a ha0) hs
    have hy : |planetAngle speed n a + speed| < 2 ^ j := by
      rw [abs_of_nonneg hy0]
      by_contra hcon
      have h1 := f32_mono (not_lt.mp hcon)
      rw [f32_two_zpow j (by omega), ← planetAngle_succ] at h1
      exact absurd hlt (not_lt.mpr h1)
    have hstep := f32_abs_sub_le _ j hj hy
    rw [planetAngle_succ]
    have hsplit : f32 (planetAngle speed n a + speed) - (a + ((n + 1 : ℕ) : ℚ) * speed)
        = (f32 (planetAngle speed n a + speed) - (planetAngle speed n a + speed))
          + (planetAngle speed n a - (a + (n : ℚ) * speed)) := by
      push_cast; ring
    rw [hsplit]
    calc |(f32 (planetAngle speed n a + speed) - (planetAngle speed n a + speed))
          + (planetAngle speed n a - (a + (n : ℚ) * speed))|
        ≤ |f32 (planetAngle speed n a + speed) - (planetAngle speed n a + speed)|
          + |planetAngle speed n a - (a + (n : ℚ) * speed)| := abs_add _ _
      _ ≤ 2 ^ (j - 25) + n * 2 ^ (j - 25) := add_le_add hstep hprev
      _ = ((n + 1 : ℕ) : ℚ) * 2 ^ (j - 25) := by push_cast; ring

theorem planets_speed_nonneg : ∀ p ∈ planets, 0 ≤ p.orbitSpeed :=
  fun p hp => (planets_speed_facts p hp).1

theorem earth_first_frame :
    planets[2]? = some ⟨15, 96, f32 0.012, 0, 0, 0.5, 1⟩ ∧
      f32 ((0 : ℚ) + f32 0.012) = f32 0.012 := by decide!

/-- C2 (amended). Planet angle after `N` frames: the stored angle of every planet of the table
is the unreduced running sum, `N` `float` additions of `orbitSpeed` to the initial angle; from
every non-negative `float` initial angle it never decreases, and while it is below `2 ^ j` it
differs from `initialAngle + N * orbitSpeed` by at most `N * 2 ^ (j - 25)`.  Earth, starting at
`0`, has angle `0.012f` after one frame and is then drawn at
`(96 * cosf(0.012f), 96 * sinf(0.012f))`. -/
theorem planet_angle_accumulates (m : Libm) (rand : ℕ → ℕ) (N : ℕ) :
    (frames m N (initScene rand)).planets.map Planet.angle
        = planets.map (fun p => planetAngle p.orbitSpeed N p.angle) ∧
      (∀ p ∈ planets, ∀ a0 : ℚ, 0 ≤ a0 → f32 a0 = a0 →
        planetAngle p.orbitSpeed N a0 ≤ planetAngle p.orbitSpeed (N + 1) a0 ∧
        ∀ j : ℤ, -125 ≤ j → planetAngle p.orbitSpeed N a0 < 2 ^ j →
          |planetAngle p.orbitSpeed N a0 - (a0 + N * p.orbitSpeed)| ≤ N * 2 ^ (j - 25)) ∧
      ∃ p, (frames m 1 (initScene rand)).planets[2]? = some p ∧
        p.angle = f32 0.012 ∧ p.orbitSpeed = f32 0.012 ∧ p.orbitRadius = 96 ∧
        (drawPlanet m 2 p).x = f32 (96 * m.cosf (f32 0.012)) ∧
        (drawPlanet m 2 p).y = f32 (96 * m.sinf (f32 0.012)) ∧
        (drawPlanet m 2 p).label = some "Earth" := by
  refine ⟨?_, ?_, ?_⟩
  · rw [frames_planets, List.map_map]
    apply List.map_congr_left
    intro p _
    simp [iterate_updatePlanet]
  · intro p hp a0 h0 hf
    have hs := planets_speed_nonneg p hp
    exact ⟨planetAngle_le_succ _ hs N a0 hf,
      fun j hj hlt => planetAngle_error _ hs a0 h0 hf j hj N hlt⟩
  · obtain ⟨he, hsum⟩ := earth_first_frame
    refine ⟨updatePlanet ⟨15, 96, f32 0.012, 0, 0, 0.5, 1⟩, ?_, ?_, rfl, rfl, ?_, ?_, rfl⟩
    · rw [frames_planets]
      show (List.map updatePlanet^[1] planets)[2]? = _
      rw [List.getElem?_map, he]
      rfl
    · exact hsum
    · show f32 (96 * m.cosf (f32 (0 + f32 0.012))) = _
      rw [hsum]
    · show f32 (96 * m.sinf (f32 (0 + f32 0.012))) = _
      rw [hsum]

theorem planet_angle_accumulates_witness :
    (⟨15, 96, f32 0.012, 0, 0, 0.5, 1⟩ : Planet) ∈ planets ∧ (0 : ℚ) ≤ 0 ∧ f32 0 = 0 ∧
      (-125 : ℤ) ≤ 3 ∧ planetAngle (f32 0.012) 2 0 < 2 ^ (3 : ℤ) ∧
      |planetAngle (f32 0.012) 2 0 - (0 + (2 : ℕ) * f32 0.012)| ≤ (2 : ℕ) * 2 ^ ((3 : ℤ) - 25) :=
  have hmem : (⟨15, 96, f32 0.012, 0, 0, 0.5, 1⟩ : Planet) ∈ planets := by decide!
  have hlt : planetAngle (f32 0.012) 2 0 < 2 ^ (3 : ℤ) := by decide!
  ⟨hmem, le_rfl, f32_zero, by norm_num, hlt,
    ((planet_angle_accumulates (constLibm 0) sampleRand 2).2.1 _ hmem 0 le_rfl f32_zero).2
      3 (by norm_num) hlt⟩

/-- After 315 frames from `0`, the running sum of Mercury's speed `0.02f` is at least `6.29`
(either it is already `8` or more, or the accumulated rounding error is at most
`315 * 2 ^ (-22)`). -/
theorem mercury_angle_lower : (629 / 100 : ℚ) ≤ planetAngle (5368709 / 268435456) 315 0 := by
  by_cases h8 : planetAngle (5368709 / 268435456) 315 0 < 2 ^ (3 : ℤ)
  · have herr := planetAngle_error (5368709 / 268435456) (by norm_num) 0 le_rfl f32_zero 3
      (by norm_num) 315 h8
    rw [abs_le] at herr
    have h1 := herr.1
    norm_num at h1 ⊢
    linarith
  · have h9 := not_lt.mp h8
    norm_num at h9 ⊢
    linarith

/-- C2 (as stated) fails: the planet update never reduces the angle modulo `2π`.  Mercury,
starting at `0`, has a stored angle of about `6.3` after 315 frames, which is not in
`[0, 2π)`. -/
theorem planet_angle_exceeds_two_pi :
    ∃ p, (frames (constLibm 0) 315 (initScene sampleRand)).planets[0]? = some p ∧
      p.orbitRadius = 48 ∧ ¬ (0 ≤ p.angle ∧ (p.angle : ℝ) < 2 * Real.pi) := by
  have hm : planets[0]? = some ⟨12, 48, 5368709 / 268435456, 0, f32 0.6, f32 0.6, f32 0.6⟩ := by
    decide!
  refine ⟨updatePlanet^[315] ⟨12, 48, 5368709 / 268435456, 0, f32 0.6, f32 0.6, f32 0.6⟩,
    ?_, ?_, ?_⟩
  · rw [frames_planets]
    show (List.map updatePlanet^[315] planets)[0]? = _
    rw [List.getElem?_map, hm]
    rfl
  · rw [iterate_updatePlanet]
  · rw [iterate_updatePlanet]
    dsimp only
    intro hcon
    have hpi := Real.pi_lt_d4
    have hreal : ((629 / 100 : ℚ) : ℝ)
        ≤ ((planetAngle (5368709 / 268435456) 315 0 : ℚ) : ℝ) := by
      exact_mod_cast mercury_angle_lower
    have h2 := hcon.2
    push_cast at hreal
    norm_num at hreal hpi
    linarith

theorem drawPlanetsFrom_getElem? (m : Libm) (ps : List Planet) :
    ∀ k i : ℕ, (drawPlanetsFrom m k ps)[i]? = (ps[i]?).map (drawPlanet m (k + i)) := by
  induction ps with
  | nil => intro k i; simp [drawPlanetsFrom]
  | cons p ps ih =>
    intro k i
    cases i with
    | zero => simp [drawPlanetsFrom]
    | succ i =>
      simp only [drawPlanetsFrom, List.getElem?_cons_succ]
      rw [ih, show k + 1 + i = k + (i + 1) by omega]

theorem planets_table :
    planets.length = 8 ∧
      planets.map Planet.orbitRadius = [48, 72, 96, 120, 168, 216, 264, 312] := by decide!

/-- C8. Planet table order: the table has 8 planets and 8 names, Mercury to Neptune, with
strictly increasing `orbitRadius`; after any number of frames the planet vector still has 8
entries that differ from the table only in `angle`, and for every index `i` below its size the
label `planetNames[i]` exists and is what the frame draws with planet `i`. -/
theorem planet_table_order :
    planets.length = 8 ∧
      planetNames
        = ["Mercury", "Venus", "Earth", "Mars", "Jupiter", "Saturn", "Uranus", "Neptune"] ∧
      planets.map Planet.orbitRadius = [48, 72, 96, 120, 168, 216, 264, 312] ∧
      List.Pairwise (fun a b : ℚ => a < b) (planets.map Planet.orbitRadius) ∧
      ∀ (m : Libm) (rand : ℕ → ℕ) (N : ℕ),
        (frames m N (initScene rand)).planets.length = 8 ∧
        (frames m N (initScene rand)).planets.map (fun p => { p with angle := 0 })
          = planets.map (fun p => { p with angle := 0 }) ∧
        ∀ i : ℕ, i < (frames m N (initScene rand)).planets.length →
          ∃ p name, (frames m N (initScene rand)).planets[i]? = some p ∧
            planetNames[i]? = some name ∧
            (drawPlanetsFrom m 0 (frames m N (initScene rand)).planets)[i]?
              = some (drawPlanet m i p) ∧
            (drawPlanet m i p).label = some name := by
  refine ⟨planets_table.1, rfl, planets_table.2, ?_, ?_⟩
  · rw [planets_table.2]
    simp only [List.pairwise_cons, List.mem_cons, List.mem_singleton, List.not_mem_nil,
      List.Pairwise.nil, forall_eq_or_imp, forall_eq, and_true]
    norm_num
  · intro m rand N
    have hlen : (frames m N (initScene rand)).planets.length = 8 := by
      rw [frames_planets, List.length_map]
      exact planets_table.1
    refine ⟨hlen, ?_, ?_⟩
    · rw [frames_planets, List.map_map]
      apply List.map_congr_left
      intro p _
      simp [iterate_updatePlanet]
    · intro i hi
      have hi8 : i < planetNames.length := by rw [hlen] at hi; exact hi
      refine ⟨(frames m N (initScene rand)).planets[i], planetNames[i],
        List.getElem?_eq_getElem hi, List.getElem?_eq_getElem hi8, ?_, ?_⟩
      · rw [drawPlanetsFrom_getElem?, List.getElem?_eq_getElem hi]
        simp
      · show planetNames[i]? = _
        exact List.getElem?_eq_getElem hi8

theorem planet_table_order_witness :
    2 < (frames (constLibm 0) 5 (initScene sampleRand)).planets.length ∧
      ∃ p name, (frames (constLibm 0) 5 (initScene sampleRand)).planets[2]? = some p ∧
        planetNames[2]? = some name ∧
        (drawPlanetsFrom (constLibm 0) 0 (frames (constLibm 0) 5 (initScene sampleRand)).planets)[2]?
          = some (drawPlanet (constLibm 0) 2 p) ∧
        (drawPlanet (constLibm 0) 2 p).label = some name :=
  have h := planet_table_order.2.2.2.2 (constLibm 0) sampleRand 5
  have hi : 2 < (frames (constLibm 0) 5 (initScene sampleRand)).planets.length := by
    rw [h.1]; norm_num
  ⟨hi, h.2.2 2 hi⟩

/-! ## Asteroid groups and their planets -/

/-- Group `i` of the initial scene was made from planet `i` of the list. -/
theorem getElem?_initAsteroidsFrom (rand : ℕ → ℕ) (ps : List Planet) :
    ∀ (c i : ℕ) (g : List Asteroid), (initAsteroidsFrom rand c ps)[i]? = some g →
      ∃ p, ps[i]? = some p ∧ ∀ a ∈ g, ∃ j k : ℕ, a = mkAsteroid p (rand j) (rand k) := by
  induction ps with
  | nil => intro c i g hg; simp [initAsteroidsFrom] at hg
  | cons p ps ih =>
    intro c i g hg
    rw [initAsteroidsFrom] at hg
    cases i with
    | zero =>
      rw [List.getElem?_cons_zero, Option.some.injEq] at hg
      subst hg
      refine ⟨p, List.getElem?_cons_zero, ?_⟩
      intro a ha
      rw [List.mem_map] at ha
      obtain ⟨k, _, rfl⟩ := ha
      exact ⟨_, _, rfl⟩
    | succ i =>
      rw [List.getElem?_cons_succ] at hg ⊢
      exact ih _ i g hg

/-- Every asteroid of group `i` after `N` frames is the `N`-fold update of an asteroid made
from planet `i` of the table. -/
theorem frames_group (m : Libm) (rand : ℕ → ℕ) (N i : ℕ) (g : List Asteroid) (p : Planet)
    (hg : (frames m N (initScene rand)).asteroidsPerOrbit[i]? = some g)
    (hp : planets[i]? = some p) :
    ∀ a ∈ g, ∃ j k : ℕ, a = (updateAsteroid m)^[N] (mkAsteroid p (rand j) (rand k)) := by
  rw [frames_asteroids, List.getElem?_map] at hg
  cases h0 : (initScene rand).asteroidsPerOrbit[i]? with
  | none => rw [h0] at hg; simp at hg
  | some g0 =>
    rw [h0, Option.map_some', Option.some.injEq] at hg
    obtain ⟨q, hq, hall⟩ := getElem?_initAsteroidsFrom rand planets _ i g0 h0
    rw [hp, Option.some.injEq] at hq
    subst hq
    subst hg
    intro a ha
    rw [List.mem_map] at ha
    obtain ⟨a0, ha0, rfl⟩ := ha
    obtain ⟨j, k, rfl⟩ := hall a0 ha0
    exact ⟨j, k, rfl⟩


/-! ## Asteroid speed -/

/-- The `float` products `1.5 * orbitSpeed` and `2.5 * orbitSpeed` are within a relative
`2 ^ (-24)` of the exact products, for every planet of the table. -/
theorem planets_speed_slack : ∀ p ∈ planets,
    1.5 * p.orbitSpeed * (1 - 1 / 16777216) ≤ f32 (1.5 * p.orbitSpeed) ∧
      f32 (2.5 * p.orbitSpeed) ≤ 2.5 * p.orbitSpeed * (1 + 1 / 16777216) := by decide!

theorem speed_lt_two_pi {v : ℚ} (h : v ≤ 3355443 / 67108864) : (v : ℝ) < 2 * Real.pi := by
  have h2 : (v : ℝ) ≤ ((3355443 / 67108864 : ℚ) : ℝ) := by exact_mod_cast h
  have h3 := Real.pi_gt_three
  push_cast at h2
  norm_num at h2
  linarith

theorem mkAsteroid_speed_facts (p : Planet) (hp : p ∈ planets) (j k : ℕ) (hk : k ≤ RAND_MAX) :
    (1.5 ≤ speedFactor k ∧ speedFactor k ≤ 2.5 ∧
        (mkAsteroid p j k).orbitSpeed = f32 (p.orbitSpeed * speedFactor k)) ∧
      (f32 (1.5 * p.orbitSpeed) ≤ (mkAsteroid p j k).orbitSpeed ∧
        (mkAsteroid p j k).orbitSpeed ≤ f32 (2.5 * p.orbitSpeed)) ∧
      (1.5 * p.orbitSpeed * (1 - 1 / 16777216) ≤ (mkAsteroid p j k).orbitSpeed ∧
        (mkAsteroid p j k).orbitSpeed ≤ 2.5 * p.orbitSpeed * (1 + 1 / 16777216)) ∧
      0 < (mkAsteroid p j k).orbitSpeed ∧
      (mkAsteroid p j k).orbitSpeed ≤ 3355443 / 67108864 := by
  obtain ⟨hp0, hp1, hp2⟩ := planets_speed_facts p hp
  obtain ⟨hs0, hs1⟩ := planets_speed_slack p hp
  obtain ⟨hf0, hf1⟩ := speedFactor_bounds hk
  obtain ⟨hv0, hv1⟩ := asteroidSpeed_bounds p hp0 hk
  exact ⟨⟨hf0, hf1, rfl⟩, ⟨hv0, hv1⟩, ⟨le_trans hs0 hv0, le_trans hv1 hs1⟩,
    lt_of_lt_of_le hp1 hv0, le_trans hv1 hp2⟩

/-- C5 (amended). Asteroid speed range.  For every planet `p` of the table and every `rand()`
result `k` in `0 .. RAND_MAX`, the speed given to an asteroid at initialisation is the `float`
product of `p.orbitSpeed` and a factor `1.5f + k / RAND_MAX` that lies in `[1.5, 2.5]`; the
product before that rounding lies between `1.5 * orbitSpeed` and `2.5 * orbitSpeed`, and the
stored speed between the `float` products `1.5 * orbitSpeed` and `2.5 * orbitSpeed`, hence between
`1.5 * orbitSpeed * (1 - 2 ^ (-24))` and `2.5 * orbitSpeed * (1 + 2 ^ (-24))`, and it is
positive and below `2π`.  After any number of frames every asteroid of group `i` of the scene
still carries such a speed, computed from `planets[i]`, as its per-frame increment. -/
theorem asteroid_speed_range (m : Libm) (rand : ℕ → ℕ) (hrand : ∀ n, rand n ≤ RAND_MAX) :
    (∀ p ∈ planets, ∀ j k : ℕ, k ≤ RAND_MAX →
      (1.5 ≤ speedFactor k ∧ speedFactor k ≤ 2.5 ∧
        (mkAsteroid p j k).orbitSpeed = f32 (p.orbitSpeed * speedFactor k)) ∧
      (1.5 * p.orbitSpeed ≤ p.orbitSpeed * speedFactor k ∧
        p.orbitSpeed * speedFactor k ≤ 2.5 * p.orbitSpeed) ∧
      (f32 (1.5 * p.orbitSpeed) ≤ (mkAsteroid p j k).orbitSpeed ∧
        (mkAsteroid p j k).orbitSpeed ≤ f32 (2.5 * p.orbitSpeed)) ∧
      (1.5 * p.orbitSpeed * (1 - 1 / 16777216) ≤ (mkAsteroid p j k).orbitSpeed ∧
        (mkAsteroid p j k).orbitSpeed ≤ 2.5 * p.orbitSpeed * (1 + 1 / 16777216)) ∧
      0 < (mkAsteroid p j k).orbitSpeed ∧
      (((mkAsteroid p j k).orbitSpeed : ℚ) : ℝ) < 2 * Real.pi) ∧
    (∀ (N i : ℕ) (g : List Asteroid) (p : Planet),
      (frames m N (initScene rand)).asteroidsPerOrbit[i]? = some g → planets[i]? = some p →
      ∀ a ∈ g,
        (∃ j k : ℕ, k ≤ RAND_MAX ∧ a.orbitSpeed = (mkAsteroid p j k).orbitSpeed) ∧
        (f32 (1.5 * p.orbitSpeed) ≤ a.orbitSpeed ∧ a.orbitSpeed ≤ f32 (2.5 * p.orbitSpeed)) ∧
        (1.5 * p.orbitSpeed * (1 - 1 / 16777216) ≤ a.orbitSpeed ∧
          a.orbitSpeed ≤ 2.5 * p.orbitSpeed * (1 + 1 / 16777216)) ∧
        0 < a.orbitSpeed ∧ (a.orbitSpeed : ℝ) < 2 * Real.pi) := by
  constructor
  · intro p hp j k hk
    obtain ⟨h1, h2, h3, h4, h5⟩ := mkAsteroid_speed_facts p hp j k hk
    have hp0 := (planets_speed_facts p hp).1
    refine ⟨h1, ⟨?_, ?_⟩, h2, h3, h4, speed_lt_two_pi h5⟩
    · rw [mul_comm]; exact mul_le_mul_of_nonneg_left h1.1 hp0
    · rw [mul_comm (2.5 : ℚ)]; exact mul_le_mul_of_nonneg_left h1.2.1 hp0
  · intro N i g p hg hp a ha
    obtain ⟨j, k, rfl⟩ := frames_group m rand N i g p hg hp a ha
    rw [iterate_updateAsteroid_orbitSpeed]
    obtain ⟨_, h2, h3, h4, h5⟩ :=
      mkAsteroid_speed_facts p (List.getElem?_mem hp) (rand j) (rand k) (hrand k)
    exact ⟨⟨rand j, rand k, hrand k, rfl⟩, h2, h3, h4, speed_lt_two_pi h5⟩

theorem asteroid_speed_range_witness :
    (∀ n, sampleRand n ≤ RAND_MAX) ∧
      (⟨15, 96, f32 0.012, 0, 0, 0.5, 1⟩ : Planet) ∈ planets ∧ 7 ≤ RAND_MAX ∧
      ((f32 (1.5 * f32 0.012)
          ≤ (mkAsteroid ⟨15, 96, f32 0.012, 0, 0, 0.5, 1⟩ 5 7).orbitSpeed ∧
        (mkAsteroid ⟨15, 96, f32 0.012, 0, 0, 0.5, 1⟩ 5 7).orbitSpeed
          ≤ f32 (2.5 * f32 0.012)) ∧
        0 < (mkAsteroid ⟨15, 96, f32 0.012, 0, 0, 0.5, 1⟩ 5 7).orbitSpeed) ∧
      (frames (constLibm 0) 3 (initScene sampleRand)).asteroidsPerOrbit[2]?
        = some ((frames (constLibm 0) 3 (initScene sampleRand)).asteroidsPerOrbit[2]?.getD []) ∧
      planets[2]? = some ⟨15, 96, f32 0.012, 0, 0, 0.5, 1⟩ ∧
      ∀ a ∈ (frames (constLibm 0) 3 (initScene sampleRand)).asteroidsPerOrbit[2]?.getD [],
        (f32 (1.5 * f32 0.012) ≤ a.orbitSpeed ∧ a.orbitSpeed ≤ f32 (2.5 * f32 0.012)) ∧
          0 < a.orbitSpeed :=
  have hg : (frames (constLibm 0) 3 (initScene sampleRand)).asteroidsPerOrbit[2]?
      = some ((frames (constLibm 0) 3 (initScene sampleRand)).asteroidsPerOrbit[2]?.getD []) := by
    rw [frames_asteroids]; rfl
  have hp : planets[2]? = some ⟨15, 96, f32 0.012, 0, 0, 0.5, 1⟩ := earth_first_frame.1
  have hmem : (⟨15, 96, f32 0.012, 0, 0, 0.5, 1⟩ : Planet) ∈ planets := List.getElem?_mem hp
  have hk : 7 ≤ RAND_MAX := by decide
  have h := asteroid_speed_range (constLibm 0) sampleRand sampleRand_le
  have h1 := h.1 _ hmem 5 7 hk
  ⟨sampleRand_le, hmem, hk, ⟨h1.2.2.1, h1.2.2.2.2.1⟩, hg, hp, fun a ha =>
    have h2 := h.2 3 2 _ _ hg hp a ha
    ⟨h2.2.1, h2.2.2.2.1⟩⟩

/-- C5 (as stated) fails on the stored speed.  When `rand()` returns `0` the speed of the
asteroids of Venus (group 1) is the `float` product `0.015f * 1.5f = 12079595 / 536870912`,
which is rounded down and lies below the exact `1.5 * orbitSpeed`; when `rand()` returns
`RAND_MAX` the speed of the asteroids of Earth (group 2) is the `float` product
`0.012f * 2.5f = 1006633 / 33554432`, which is rounded up and lies above the exact
`2.5 * orbitSpeed`. -/
theorem asteroid_speed_outside_range :
    (∃ (g : List Asteroid) (p : Planet),
      (initScene fun _ => 0).asteroidsPerOrbit[1]? = some g ∧ planets[1]? = some p ∧
      ∃ a ∈ g, a.orbitSpeed = asteroidSpeed p 0 ∧ a.orbitSpeed = 12079595 / 536870912 ∧
        1.5 * p.orbitSpeed = 48318381 / 2147483648 ∧
        ¬ (1.5 * p.orbitSpeed ≤ a.orbitSpeed ∧ a.orbitSpeed ≤ 2.5 * p.orbitSpeed)) ∧
    (∃ (g : List Asteroid) (p : Planet),
      (initScene fun _ => RAND_MAX).asteroidsPerOrbit[2]? = some g ∧ planets[2]? = some p ∧
      ∃ a ∈ g, a.orbitSpeed = asteroidSpeed p RAND_MAX ∧ a.orbitSpeed = 1006633 / 33554432 ∧
        2.5 * p.orbitSpeed = 32212255 / 1073741824 ∧
        ¬ (1.5 * p.orbitSpeed ≤ a.orbitSpeed ∧ a.orbitSpeed ≤ 2.5 * p.orbitSpeed)) := by
  refine ⟨⟨_, _, rfl, rfl, ?_⟩, ⟨_, _, rfl, rfl, ?_⟩⟩
  · decide!
  · decide!

/-! ## The asteroid angle and the unwrapped angle -/

/-- The `double` rounding error for `|x| < 2 ^ j`. -/
theorem f64_abs_sub_le (x : ℚ) (j : ℤ) (hj : -1021 ≤ j) (hx : |x| < 2 ^ j) :
    |f64 x - x| ≤ 2 ^ (j - 54) := by
  have := roundTo_abs_sub_le 53 (-1074) x j (by push_cast; omega) hx
  have he : j - ((53 : ℕ) : ℤ) - 1 = j - 54 := by push_cast; ring
  rw [he] at this
  exact this

theorem wrap_step_arith (x y1 y2 y3 T : ℚ) (e1 : |y1 - x| ≤ 1 / 4194304)
    (e2 : |y2 - (y1 - T)| ≤ 1 / 288230376151711744) (e3 : |y3 - y2| ≤ 1 / 536870912) :
    |y3 - (x - T)| ≤ 1 / 2097152 := by
  have h : y3 - (x - T) = (y3 - y2) + (y2 - (y1 - T)) + (y1 - x) := by ring
  rw [h]
  exact le_trans (abs_add_three _ _ _)
    (le_trans (add_le_add (add_le_add e3 e2) e1) (by norm_num))

/-- The two roundings of the wrap subtraction, for a difference `u` in `[0, 1/16 - 1/1024]`. -/
theorem wrap_error (u : ℚ) (h0 : 0 ≤ u) (h1 : u ≤ 1 / 16 - 1 / 1024) :
    |f64 u - u| ≤ 1 / 288230376151711744 ∧ |f32 (f64 u) - f64 u| ≤ 1 / 536870912 := by
  have hu : |u| < 2 ^ (-4 : ℤ) := by
    rw [abs_of_nonneg h0]
    exact lt_of_le_of_lt h1 (by norm_num)
  have e2 : |f64 u - u| ≤ 1 / 288230376151711744 :=
    le_of_le_of_eq (f64_abs_sub_le u (-4) (by norm_num) hu) (by norm_num)
  have hz : |f64 u| < 2 ^ (-4 : ℤ) := by
    rw [abs_of_nonneg (f64_nonneg h0)]
    have h2 := (abs_le.mp e2).2
    have h3 : f64 u ≤ 1 / 16 - 1 / 1024 + 1 / 288230376151711744 := by linarith
    exact lt_of_le_of_lt h3 (by norm_num)
  exact ⟨e2, le_of_le_of_eq (f32_abs_sub_le _ (-4) (by norm_num) hz) (by norm_num)⟩

/-- One update adds the speed and subtracts `2.0f * M_PI` at most once, up to a rounding
error of `2 ^ (-21)`. -/
theorem updateAsteroid_angle_step (m : Libm) (a : Asteroid)
    (ha0 : 0 ≤ a.angle) (ha1 : a.angle ≤ 13176795 / 2097152)
    (hs0 : 0 ≤ a.orbitSpeed) (hs1 : a.orbitSpeed ≤ 3355443 / 67108864) :
    ∃ d : ℕ, d ≤ 1 ∧
      |(updateAsteroid m a).angle - (a.angle + a.orbitSpeed - d * f64 (2.0 * M_PI))|
        ≤ 1 / 2097152 := by
  have hsum0 : 0 ≤ a.angle + a.orbitSpeed := add_nonneg ha0 hs0
  have hle : a.angle + a.orbitSpeed ≤ 13176795 / 2097152 + 3355443 / 67108864 :=
    add_le_add ha1 hs1
  have hsum : |a.angle + a.orbitSpeed| < 2 ^ (3 : ℤ) := by
    rw [abs_of_nonneg hsum0]
    exact lt_of_le_of_lt hle (by norm_num)
  have e1 : |f32 (a.angle + a.orbitSpeed) - (a.angle + a.orbitSpeed)| ≤ 1 / 4194304 :=
    le_of_le_of_eq (f32_abs_sub_le _ 3 (by norm_num) hsum) (by norm_num)
  have hc1 : f32 (13176795 / 2097152 + 3355443 / 67108864) = 13281653 / 2097152 := by decide!
  have hup : f32 (a.angle + a.orbitSpeed) ≤ 13281653 / 2097152 :=
    le_of_le_of_eq (f32_mono hle) hc1
  by_cases h : f32 (a.angle + a.orbitSpeed) > f64 (2.0 * M_PI)
  · have hang : (updateAsteroid m a).angle
        = f32 (f64 (f32 (a.angle + a.orbitSpeed) - f64 (2.0 * M_PI))) := if_pos h
    have h1 : f32 (a.angle + a.orbitSpeed) - f64 (2.0 * M_PI) ≤ 1 / 16 - 1 / 1024 := by
      rw [twoPi_eq]
      exact le_trans (sub_le_sub_right hup _) (by norm_num)
    obtain ⟨e2, e3⟩ := wrap_error _ (sub_nonneg.mpr (le_of_lt h)) h1
    refine ⟨1, le_rfl, ?_⟩
    rw [hang, Nat.cast_one, one_mul]
    exact wrap_step_arith _ _ _ _ _ e1 e2 e3
  · have hang : (updateAsteroid m a).angle = f32 (a.angle + a.orbitSpeed) := if_neg h
    refine ⟨0, Nat.zero_le 1, ?_⟩
    rw [hang, Nat.cast_zero, zero_mul, sub_zero]
    exact le_trans e1 (by norm_num)

theorem accumulate_step_arith (t0 t1 a s T ε : ℚ) (n w d : ℕ)
    (herr : |t0 - (a + n * s - w * T)| ≤ n * ε)
    (hstep : |t1 - (t0 + s - d * T)| ≤ ε) :
    |t1 - (a + ((n + 1 : ℕ) : ℚ) * s - ((w + d : ℕ) : ℚ) * T)| ≤ ((n + 1 : ℕ) : ℚ) * ε := by
  have h : t1 - (a + ((n + 1 : ℕ) : ℚ) * s - ((w + d : ℕ) : ℚ) * T)
      = (t1 - (t0 + s - d * T)) + (t0 - (a + n * s - w * T)) := by
    rw [Nat.cast_add, Nat.cast_add, Nat.cast_one]; ring
  have h2 : ((n + 1 : ℕ) : ℚ) * ε = ε + n * ε := by
    rw [Nat.cast_add, Nat.cast_one]; ring
  rw [h, h2]
  exact le_trans (abs_add _ _) (add_le_add hstep herr)

/-- After `N` updates the angle is the unwrapped angle minus a whole number `w ≤ N` of
`2.0f * M_PI`, up to an accumulated rounding error of `N * 2 ^ (-21)`. -/
theorem iterate_updateAsteroid_angle_error (m : Libm) (a : Asteroid)
    (ha0 : 0 ≤ a.angle) (ha1 : a.angle ≤ 13176795 / 2097152)
    (hs0 : 0 ≤ a.orbitSpeed) (hs1 : a.orbitSpeed ≤ 3355443 / 67108864) :
    ∀ N : ℕ, ∃ w : ℕ, w ≤ N ∧
      |((updateAsteroid m)^[N] a).angle - (a.angle + N * a.orbitSpeed - w * f64 (2.0 * M_PI))|
        ≤ N * (1 / 2097152) := by
  intro N
  induction N with
  | zero => exact ⟨0, le_rfl, by simp⟩
  | succ n ih =>
    obtain ⟨w, hw, herr⟩ := ih
    obtain ⟨h0, h1, _⟩ := iterate_updateAsteroid_angle m a ha0 ha1 hs0 hs1 n
    have hs := iterate_updateAsteroid_orbitSpeed m n a
    obtain ⟨d, hd, hstep⟩ := updateAsteroid_angle_step m ((updateAsteroid m)^[n] a) h0 h1
      (le_of_le_of_eq hs0 hs.symm) (le_of_eq_of_le hs hs1)
    rw [hs] at hstep
    refine ⟨w + d, Nat.add_le_add hw hd, ?_⟩
    rw [Function.iterate_succ_apply']
    exact accumulate_step_arith _ _ _ _ _ _ n w d herr hstep

/-- The threshold `2.0f * M_PI` is within `2 ^ (-51)` of `2π`. -/
theorem twoPi_near_real :
    |(2 * Real.pi) - ((f64 (2.0 * M_PI) : ℚ) : ℝ)| ≤ 1 / 2251799813685248 := by
  rw [twoPi_eq]
  have h1 := Real.pi_gt_d20
  have h2 := Real.pi_lt_d20
  rw [abs_le]
  push_cast
  norm_num at h1 h2 ⊢
  constructor <;> linarith

theorem updateAsteroid_position (m : Libm) (a : Asteroid) :
    (updateAsteroid m a).x
        = f32 ((updateAsteroid m a).orbitRadius * m.cosf (updateAsteroid m a).angle) ∧
      (updateAsteroid m a).y
        = f32 ((updateAsteroid m a).orbitRadius * m.sinf (updateAsteroid m a).angle) :=
  ⟨rfl, rfl⟩

theorem iterate_updateAsteroid_position (m : Libm) (a : Asteroid) (N : ℕ) (hN : 1 ≤ N) :
    ((updateAsteroid m)^[N] a).x
        = f32 (((updateAsteroid m)^[N] a).orbitRadius * m.cosf ((updateAsteroid m)^[N] a).angle) ∧
      ((updateAsteroid m)^[N] a).y
        = f32 (((updateAsteroid m)^[N] a).orbitRadius
            * m.sinf ((updateAsteroid m)^[N] a).angle) := by
  obtain ⟨n, rfl⟩ : ∃ n, N = n + 1 := ⟨N - 1, by omega⟩
  rw [Function.iterate_succ_apply']
  exact updateAsteroid_position m _

/-! ## Asteroids and the unwrapped angle -/

theorem real_half_sin_le (x y : ℝ) : |Real.sin ((x - y) / 2)| ≤ |x - y| / 2 := by
  have h := @Real.abs_sin_le_abs ((x - y) / 2)
  rwa [abs_div, abs_of_pos (by norm_num : (0 : ℝ) < 2)] at h

theorem real_cos_sub_cos_le (x y : ℝ) : |Real.cos x - Real.cos y| ≤ |x - y| := by
  rw [Real.cos_sub_cos, abs_mul, abs_mul, abs_neg, abs_of_pos (by norm_num : (0 : ℝ) < 2)]
  calc 2 * |Real.sin ((x + y) / 2)| * |Real.sin ((x - y) / 2)|
      ≤ 2 * 1 * (|x - y| / 2) :=
        mul_le_mul (mul_le_mul_of_nonneg_left (Real.abs_sin_le_one _) (by norm_num))
          (real_half_sin_le x y) (abs_nonneg _) (by norm_num)
    _ = |x - y| := by ring

theorem real_sin_sub_sin_le (x y : ℝ) : |Real.sin x - Real.sin y| ≤ |x - y| := by
  rw [Real.sin_sub_sin, abs_mul, abs_mul, abs_of_pos (by norm_num : (0 : ℝ) < 2)]
  calc 2 * |Real.sin ((x - y) / 2)| * |Real.cos ((x + y) / 2)|
      ≤ 2 * (|x - y| / 2) * 1 :=
        mul_le_mul (mul_le_mul_of_nonneg_left (real_half_sin_le x y) (by norm_num))
          (Real.abs_cos_le_one _) (abs_nonneg _)
          (mul_nonneg (by norm_num) (div_nonneg (abs_nonneg _) (by norm_num)))
    _ = |x - y| := by ring

/-- A point at distance `R ≥ 0` on the direction of angle `t` is within `R * ε` of the point
on the direction of angle `u`, in each coordinate, when `t` is within `ε` of `u` minus a whole
number of turns. -/
theorem real_position_near (R t u ε : ℝ) (w : ℕ) (hR : 0 ≤ R)
    (h : |t - (u - w * (2 * Real.pi))| ≤ ε) :
    |R * Real.cos t - R * Real.cos u| ≤ R * ε ∧ |R * Real.sin t - R * Real.sin u| ≤ R * ε := by
  have hc := real_cos_sub_cos_le t (u - w * (2 * Real.pi))
  have hs := real_sin_sub_sin_le t (u - w * (2 * Real.pi))
  rw [Real.cos_sub_nat_mul_two_pi] at hc
  rw [Real.sin_sub_nat_mul_two_pi] at hs
  rw [← mul_sub, ← mul_sub, abs_mul, abs_mul, abs_of_nonneg hR]
  exact ⟨mul_le_mul_of_nonneg_left (le_trans hc h) hR,
    mul_le_mul_of_nonneg_left (le_trans hs h) hR⟩

theorem planets_orbitRadius_bounds : ∀ p ∈ planets, 0 ≤ p.orbitRadius ∧ p.orbitRadius ≤ 312 := by
  decide!

theorem turn_error_real (t a s T : ℚ) (N w : ℕ) (hw : w ≤ N)
    (herr : |t - (a + N * s - w * T)| ≤ N * (1 / 2097152))
    (hT1 : |2 * Real.pi - (T : ℝ)| ≤ 1 / 2251799813685248) :
    |(t : ℝ) - ((a : ℝ) + N * (s : ℝ) - w * (2 * Real.pi))| ≤ N * (1 / 1048576) := by
  have hreal : |(t : ℝ) - ((a : ℝ) + N * (s : ℝ) - w * (T : ℝ))| ≤ N * (1 / 2097152) := by
    have h0 := (Rat.cast_le (K := ℝ)).mpr herr
    rw [Rat.cast_abs] at h0
    push_cast at h0
    exact h0
  have hN0 : (0 : ℝ) ≤ N := Nat.cast_nonneg N
  have hwT : |(w : ℝ) * (2 * Real.pi - (T : ℝ))| ≤ N * (1 / 2251799813685248) := by
    rw [abs_mul, Nat.abs_cast]
    exact mul_le_mul (Nat.cast_le.mpr hw) hT1 (abs_nonneg _) hN0
  have h : (t : ℝ) - ((a : ℝ) + N * (s : ℝ) - w * (2 * Real.pi))
      = ((t : ℝ) - ((a : ℝ) + N * (s : ℝ) - w * (T : ℝ))) + w * (2 * Real.pi - (T : ℝ)) := by
    ring
  rw [h]
  calc |((t : ℝ) - ((a : ℝ) + N * (s : ℝ) - w * (T : ℝ))) + w * (2 * Real.pi - (T : ℝ))|
      ≤ |(t : ℝ) - ((a : ℝ) + N * (s : ℝ) - w * (T : ℝ))| + |(w : ℝ) * (2 * Real.pi - (T : ℝ))| :=
        abs_add _ _
    _ ≤ N * (1 / 2097152) + N * (1 / 2251799813685248) := add_le_add hreal hwT
    _ = N * (1 / 2097152 + 1 / 2251799813685248) := by ring
    _ ≤ N * (1 / 1048576) := mul_le_mul_of_nonneg_left (by norm_num) hN0

/-- The angle facts of the `N`-fold update of an asteroid with angle in `[0, float(2π)]`,
speed in `[0, 0.05f]` and a non-negative radius. -/
theorem iterate_updateAsteroid_turn (m : Libm) (b : Asteroid)
    (ha0 : 0 ≤ b.angle) (ha1 : b.angle ≤ 13176795 / 2097152)
    (hs0 : 0 ≤ b.orbitSpeed) (hs1 : b.orbitSpeed ≤ 3355443 / 67108864)
    (hR : 0 ≤ b.orbitRadius) (N : ℕ) :
    ∃ w : ℕ, w ≤ N ∧
      |((updateAsteroid m)^[N] b).angle - (b.angle + N * b.orbitSpeed - w * f64 (2.0 * M_PI))|
        ≤ N * (1 / 2097152) ∧
      |(((updateAsteroid m)^[N] b).angle : ℝ)
          - ((b.angle : ℝ) + N * (b.orbitSpeed : ℝ) - w * (2 * Real.pi))|
        ≤ N * (1 / 1048576) ∧
      (|(((updateAsteroid m)^[N] b).orbitRadius : ℝ)
            * Real.cos (((updateAsteroid m)^[N] b).angle : ℝ)
          - (((updateAsteroid m)^[N] b).orbitRadius : ℝ)
            * Real.cos ((b.angle : ℝ) + N * (b.orbitSpeed : ℝ))|
          ≤ (((updateAsteroid m)^[N] b).orbitRadius : ℝ) * (N * (1 / 1048576)) ∧
        |(((updateAsteroid m)^[N] b).orbitRadius : ℝ)
            * Real.sin (((updateAsteroid m)^[N] b).angle : ℝ)
          - (((updateAsteroid m)^[N] b).orbitRadius : ℝ)
            * Real.sin ((b.angle : ℝ) + N * (b.orbitSpeed : ℝ))|
          ≤ (((updateAsteroid m)^[N] b).orbitRadius : ℝ) * (N * (1 / 1048576))) := by
  obtain ⟨w, hw, herr⟩ := iterate_updateAsteroid_angle_error m b ha0 ha1 hs0 hs1 N
  have hnear := turn_error_real _ _ _ _ N w hw herr twoPi_near_real
  have hR2 : (0 : ℝ) ≤ (((updateAsteroid m)^[N] b).orbitRadius : ℝ) := by
    rw [iterate_updateAsteroid_orbitRadius]
    exact Rat.cast_nonneg.mpr hR
  exact ⟨w, hw, herr, hnear, real_position_near _ _ _ _ w hR2 hnear⟩

/-- C10 (amended). The asteroid wrap and the unwrapped angle: every asteroid of group `i`
after `N` frames is the `N`-fold update of an asteroid created with an angle `a0` and a speed
`s`; its stored angle differs from `a0 + N * s - w * (2.0f * M_PI)`, for a whole number
`w ≤ N` of subtractions (none or one per frame), by at most `N * 2 ^ (-21)`, and from
`a0 + N * s - w * 2π` by at most `N * 2 ^ (-20)`.  The point `(orbitRadius * cos, orbitRadius *
sin)` of the stored angle is therefore within `orbitRadius * N * 2 ^ (-20)`, in each
coordinate, of the point of the unwrapped angle `a0 + N * s`; and for `N ≥ 1` the stored
position is the `float` product of `orbitRadius` with `cosf` and `sinf` of the stored angle. -/
theorem asteroid_angle_mod_turn (m : Libm) (rand : ℕ → ℕ) (hrand : ∀ n, rand n ≤ RAND_MAX)
    (N i : ℕ) (g : List Asteroid) (p : Planet)
    (hg : (frames m N (initScene rand)).asteroidsPerOrbit[i]? = some g)
    (hp : planets[i]? = some p) :
    ∀ a ∈ g, ∃ j k w : ℕ,
      a = (updateAsteroid m)^[N] (mkAsteroid p (rand j) (rand k)) ∧ w ≤ N ∧
      |a.angle - ((mkAsteroid p (rand j) (rand k)).angle
          + N * (mkAsteroid p (rand j) (rand k)).orbitSpeed - w * f64 (2.0 * M_PI))|
        ≤ N * (1 / 2097152) ∧
      |(a.angle : ℝ) - (((mkAsteroid p (rand j) (rand k)).angle : ℝ)
          + N * ((mkAsteroid p (rand j) (rand k)).orbitSpeed : ℝ) - w * (2 * Real.pi))|
        ≤ N * (1 / 1048576) ∧
      (|(a.orbitRadius : ℝ) * Real.cos (a.angle : ℝ)
          - (a.orbitRadius : ℝ) * Real.cos (((mkAsteroid p (rand j) (rand k)).angle : ℝ)
              + N * ((mkAsteroid p (rand j) (rand k)).orbitSpeed : ℝ))|
          ≤ (a.orbitRadius : ℝ) * (N * (1 / 1048576)) ∧
        |(a.orbitRadius : ℝ) * Real.sin (a.angle : ℝ)
          - (a.orbitRadius : ℝ) * Real.sin (((mkAsteroid p (rand j) (rand k)).angle : ℝ)
              + N * ((mkAsteroid p (rand j) (rand k)).orbitSpeed : ℝ))|
          ≤ (a.orbitRadius : ℝ) * (N * (1 / 1048576))) ∧
      (1 ≤ N → a.x = f32 (a.orbitRadius * m.cosf a.angle) ∧
        a.y = f32 (a.orbitRadius * m.sinf a.angle)) := by
  intro a ha
  obtain ⟨j, k, rfl⟩ := frames_group m rand N i g p hg hp a ha
  obtain ⟨_, _, _, hpos, hle⟩ :=
    mkAsteroid_speed_facts p (List.getElem?_mem hp) (rand j) (rand k) (hrand k)
  obtain ⟨hk0, hk1⟩ := asteroidAngle_bounds (hrand j)
  obtain ⟨w, hw, herr, hnear, hposn⟩ :=
    iterate_updateAsteroid_turn m (mkAsteroid p (rand j) (rand k)) hk0 hk1 (le_of_lt hpos) hle
      (planets_orbitRadius_bounds p (List.getElem?_mem hp)).1 N
  exact ⟨j, k, w, rfl, hw, herr, hnear, hposn, iterate_updateAsteroid_position m _ N⟩

theorem asteroid_angle_mod_turn_witness :
    (∀ n, sampleRand n ≤ RAND_MAX) ∧
      (frames (constLibm 0) 3 (initScene sampleRand)).asteroidsPerOrbit[2]?
        = some ((frames (constLibm 0) 3 (initScene sampleRand)).asteroidsPerOrbit[2]?.getD []) ∧
      planets[2]? = some ⟨15, 96, f32 0.012, 0, 0, 0.5, 1⟩ ∧
      ∀ a ∈ (frames (constLibm 0) 3 (initScene sampleRand)).asteroidsPerOrbit[2]?.getD [],
        ∃ j k w : ℕ, w ≤ 3 ∧
          |a.angle - (asteroidAngle (sampleRand j)
              + (3 : ℕ) * asteroidSpeed ⟨15, 96, f32 0.012, 0, 0, 0.5, 1⟩ (sampleRand k)
              - w * f64 (2.0 * M_PI))| ≤ (3 : ℕ) * (1 / 2097152) :=
  have hg : (frames (constLibm 0) 3 (initScene sampleRand)).asteroidsPerOrbit[2]?
      = some ((frames (constLibm 0) 3 (initScene sampleRand)).asteroidsPerOrbit[2]?.getD []) := by
    rw [frames_asteroids]; rfl
  have hp : planets[2]? = some ⟨15, 96, f32 0.012, 0, 0, 0.5, 1⟩ := earth_first_frame.1
  ⟨sampleRand_le, hg, hp, fun a ha =>
    have h := asteroid_angle_mod_turn (constLibm 0) sampleRand sampleRand_le 3 2 _ _ hg hp a ha
    h.elim fun j hj => hj.elim fun k hk => hk.elim fun w hw =>
      ⟨j, k, w, hw.2.1, hw.2.2.1⟩⟩

/-- C10 (as stated) fails: when `rand()` returns `RAND_MAX`, the first asteroid of Mercury
starts at the `float` nearest to `2π` with speed `0.02f * 2.5f`; its first update wraps, and
the stored angle then differs from `a0 + 1 * s` by `-1686629661 / 268435456`, which is not an
integer multiple of `2π`. -/
theorem asteroid_angle_not_mod_turn :
    ∃ a0 a1 : Asteroid,
      ((initScene fun _ => RAND_MAX).asteroidsPerOrbit[0]?.bind fun g => g[0]?) = some a0 ∧
      ((frames (constLibm 0) 1 (initScene fun _ => RAND_MAX)).asteroidsPerOrbit[0]?.bind
        fun g => g[0]?) = some a1 ∧
      a1.angle - (a0.angle + (1 : ℕ) * a0.orbitSpeed) = -1686629661 / 268435456 ∧
      ¬ ∃ z : ℤ, (a1.angle : ℝ) - ((a0.angle : ℝ) + (1 : ℕ) * (a0.orbitSpeed : ℝ))
        = z * (2 * Real.pi) := by
  have hval : ∃ a0 a1 : Asteroid,
      ((initScene fun _ => RAND_MAX).asteroidsPerOrbit[0]?.bind fun g => g[0]?) = some a0 ∧
      ((frames (constLibm 0) 1 (initScene fun _ => RAND_MAX)).asteroidsPerOrbit[0]?.bind
        fun g => g[0]?) = some a1 ∧
      a1.angle - (a0.angle + (1 : ℕ) * a0.orbitSpeed) = -1686629661 / 268435456 := by
    refine ⟨_, _, rfl, rfl, ?_⟩
    decide!
  obtain ⟨a0, a1, h0, h1, hd⟩ := hval
  refine ⟨a0, a1, h0, h1, hd, ?_⟩
  rintro ⟨z, hz⟩
  have hdr : (a1.angle : ℝ) - ((a0.angle : ℝ) + (1 : ℕ) * (a0.orbitSpeed : ℝ))
      = ((-1686629661 / 268435456 : ℚ) : ℝ) := by
    rw [← hd]; push_cast; ring
  rw [hdr] at hz
  have hz0 : (z : ℝ) ≠ 0 := by
    intro h
    rw [h, zero_mul] at hz
    norm_num at hz
  have hpi : Real.pi = (((-1686629661 / 268435456 : ℚ) / (2 * z) : ℚ) : ℝ) := by
    push_cast
    field_simp
    push_cast at hz
    linarith
  exact irrational_pi.ne_rat _ hpi

/-! ## Asteroids and their orbit ring -/

/-- Every vertex of a ring is the `float` product of the radius with `cosf` and `sinf` of an
angle. -/
theorem drawOrbit_vertex (m : Libm) (R : ℚ) :
    ∀ v ∈ drawOrbit m R, ∃ θ : ℚ, v = (f32 (R * m.cosf θ), f32 (R * m.sinf θ)) := by
  intro v hv
  rw [drawOrbit, List.mem_map] at hv
  obtain ⟨i, _, rfl⟩ := hv
  exact ⟨_, rfl⟩

/-- In every frame, ring `i` is drawn with the `orbitRadius` of planet `i` of the table. -/
theorem drawOrbits_getElem? (m : Libm) (rand : ℕ → ℕ) (M i : ℕ) (p : Planet)
    (hp : planets[i]? = some p) :
    (drawOrbits m (frames m M (initScene rand)).planets)[i]?
      = some (drawOrbit m p.orbitRadius) := by
  have h0 : (initScene rand).planets[i]? = some p := hp
  rw [frames_planets, drawOrbits, List.map_map, List.getElem?_map, h0, Option.map_some',
    Function.comp_apply, iterate_updatePlanet]

/-- The square of a stored coordinate `f32 (R * c)` is within `625 / 65536` of `(R * c) ^ 2`
when `0 ≤ R ≤ 312` and `|c| ≤ 1`. -/
theorem coordinate_sq_error (R c : ℚ) (hR0 : 0 ≤ R) (hR1 : R ≤ 312) (hc : |c| ≤ 1) :
    |f32 (R * c) ^ 2 - (R * c) ^ 2| ≤ 625 / 65536 := by
  have ht : |R * c| ≤ 312 := by
    rw [abs_mul, abs_of_nonneg hR0]
    calc R * |c| ≤ R * 1 := mul_le_mul_of_nonneg_left hc hR0
      _ ≤ 312 := by linarith
  have hlt : |R * c| < 2 ^ (9 : ℤ) := lt_of_le_of_lt ht (by norm_num)
  have e := f32_abs_sub_le _ 9 (by norm_num) hlt
  norm_num at e
  have hsum : |f32 (R * c) + R * c| ≤ 625 := by
    calc |f32 (R * c) + R * c| = |(f32 (R * c) - R * c) + 2 * (R * c)| := by ring_nf
      _ ≤ |f32 (R * c) - R * c| + |2 * (R * c)| := abs_add _ _
      _ ≤ 1 / 65536 + 2 * 312 := by
        rw [abs_mul, abs_of_pos (by norm_num : (0 : ℚ) < 2)]
        linarith
      _ ≤ 625 := by norm_num
  calc |f32 (R * c) ^ 2 - (R * c) ^ 2|
      = |f32 (R * c) - R * c| * |f32 (R * c) + R * c| := by rw [← abs_mul]; ring_nf
    _ ≤ 1 / 65536 * 625 := mul_le_mul e hsum (abs_nonneg _) (by norm_num)
    _ = 625 / 65536 := by norm_num

theorem ring_error_arith (R c s X Y δ : ℚ) (ex : |X ^ 2 - (R * c) ^ 2| ≤ 625 / 65536)
    (ey : |Y ^ 2 - (R * s) ^ 2| ≤ 625 / 65536) (hcs : |c ^ 2 + s ^ 2 - 1| ≤ δ) :
    |X ^ 2 + Y ^ 2 - R ^ 2| ≤ 625 / 32768 + R ^ 2 * δ := by
  have hq : |R ^ 2 * (c ^ 2 + s ^ 2 - 1)| ≤ R ^ 2 * δ := by
    rw [abs_mul, abs_of_nonneg (sq_nonneg _)]
    exact mul_le_mul_of_nonneg_left hcs (sq_nonneg _)
  have h : X ^ 2 + Y ^ 2 - R ^ 2
      = (X ^ 2 - (R * c) ^ 2) + (Y ^ 2 - (R * s) ^ 2) + R ^ 2 * (c ^ 2 + s ^ 2 - 1) := by ring
  rw [h]
  calc |(X ^ 2 - (R * c) ^ 2) + (Y ^ 2 - (R * s) ^ 2) + R ^ 2 * (c ^ 2 + s ^ 2 - 1)|
      ≤ |X ^ 2 - (R * c) ^ 2| + |Y ^ 2 - (R * s) ^ 2| + |R ^ 2 * (c ^ 2 + s ^ 2 - 1)| :=
        abs_add_three _ _ _
    _ ≤ 625 / 65536 + 625 / 65536 + R ^ 2 * δ := add_le_add (add_le_add ex ey) hq
    _ = 625 / 32768 + R ^ 2 * δ := by norm_num

/-- C9 (amended). Asteroids and their parent's orbit ring: after `N ≥ 1` frames every asteroid
of group `i` has the `orbitRadius` of `planets[i]`, the radius with which `drawOrbit` draws
ring `i` in every frame, and the stored position `x = float(orbitRadius * cosf(angle))`,
`y = float(orbitRadius * sinf(angle))` of its stored angle, the form of every vertex of that
ring.  It lies on the circle of that radius up to rounding: when the library's values at the
angle are within `[-1, 1]` and `|cosf² + sinf² - 1| ≤ δ`, then
`|x² + y² - orbitRadius²| ≤ 625 / 32768 + orbitRadius² * δ`. -/
theorem asteroid_on_ring (m : Libm) (rand : ℕ → ℕ) (N : ℕ) (hN : 1 ≤ N) (i : ℕ)
    (g : List Asteroid) (p : Planet)
    (hg : (frames m N (initScene rand)).asteroidsPerOrbit[i]? = some g)
    (hp : planets[i]? = some p) :
    ∀ a ∈ g,
      a.orbitRadius = p.orbitRadius ∧
      a.x = f32 (a.orbitRadius * m.cosf a.angle) ∧
      a.y = f32 (a.orbitRadius * m.sinf a.angle) ∧
      (∀ M : ℕ, (drawOrbits m (frames m M (initScene rand)).planets)[i]?
        = some (drawOrbit m a.orbitRadius)) ∧
      (∀ v ∈ drawOrbit m a.orbitRadius, ∃ θ : ℚ,
        v = (f32 (a.orbitRadius * m.cosf θ), f32 (a.orbitRadius * m.sinf θ))) ∧
      ∀ δ : ℚ, |m.cosf a.angle| ≤ 1 → |m.sinf a.angle| ≤ 1 →
        |m.cosf a.angle ^ 2 + m.sinf a.angle ^ 2 - 1| ≤ δ →
        |a.x ^ 2 + a.y ^ 2 - p.orbitRadius ^ 2| ≤ 625 / 32768 + p.orbitRadius ^ 2 * δ := by
  intro a ha
  obtain ⟨j, k, rfl⟩ := frames_group m rand N i g p hg hp a ha
  obtain ⟨hx, hy⟩ := iterate_updateAsteroid_position m (mkAsteroid p (rand j) (rand k)) N hN
  have hr : ((updateAsteroid m)^[N] (mkAsteroid p (rand j) (rand k))).orbitRadius
      = p.orbitRadius := by
    rw [iterate_updateAsteroid_orbitRadius]; rfl
  refine ⟨hr, hx, hy, ?_, ?_, ?_⟩
  · intro M
    rw [hr]
    exact drawOrbits_getElem? m rand M i p hp
  · exact drawOrbit_vertex m _
  intro δ hc hs hcs
  obtain ⟨hR0, hR1⟩ := planets_orbitRadius_bounds p (List.getElem?_mem hp)
  rw [hx, hy, hr]
  exact ring_error_arith _ _ _ _ _ δ (coordinate_sq_error _ _ hR0 hR1 hc)
    (coordinate_sq_error _ _ hR0 hR1 hs) hcs

theorem asteroid_on_ring_witness :
    1 ≤ 3 ∧
      (frames (fixedLibm (4 / 5) (3 / 5)) 3 (initScene sampleRand)).asteroidsPerOrbit[2]?
        = some ((frames (fixedLibm (4 / 5) (3 / 5)) 3
            (initScene sampleRand)).asteroidsPerOrbit[2]?.getD []) ∧
      planets[2]? = some ⟨15, 96, f32 0.012, 0, 0, 0.5, 1⟩ ∧
      ∀ a ∈ (frames (fixedLibm (4 / 5) (3 / 5)) 3
          (initScene sampleRand)).asteroidsPerOrbit[2]?.getD [],
        a.orbitRadius = 96 ∧ a.x = f32 (a.orbitRadius * (3 / 5)) ∧
          |a.x ^ 2 + a.y ^ 2 - (96 : ℚ) ^ 2| ≤ 625 / 32768 + (96 : ℚ) ^ 2 * 0 :=
  have hg : (frames (fixedLibm (4 / 5) (3 / 5)) 3 (initScene sampleRand)).asteroidsPerOrbit[2]?
      = some ((frames (fixedLibm (4 / 5) (3 / 5)) 3
          (initScene sampleRand)).asteroidsPerOrbit[2]?.getD []) := by
    rw [frames_asteroids]; rfl
  have hp : planets[2]? = some ⟨15, 96, f32 0.012, 0, 0, 0.5, 1⟩ := earth_first_frame.1
  ⟨by decide, hg, hp, fun a ha =>
    have h := asteroid_on_ring (fixedLibm (4 / 5) (3 / 5)) sampleRand 3 (by decide) 2 _ _ hg hp
      a ha
    ⟨h.1, h.2.1, h.2.2.2.2.2 0 (by simp only [fixedLibm]; rw [abs_le]; constructor <;> norm_num)
      (by simp only [fixedLibm]; rw [abs_le]; constructor <;> norm_num)
      (by simp only [fixedLibm]; norm_num)⟩⟩

/-- C9 (as stated) fails: with `rand()` returning `0`, the asteroids of Mercury have angle
`0.03f` after one frame; for the correctly rounded library values `cosf = 16769667 / 16777216`
and `sinf = 16103711 / 536870912` at that angle (the sample library returns them at every
argument) the stored `x` is not `orbitRadius * cosf(angle)` but its `float` rounding, and the
stored position has `x² + y² = 162129583626195089 / 70368744177664`, which is not `48²`. -/
theorem asteroid_off_ring :
    ∃ (g : List Asteroid) (p : Planet),
      (frames (fixedLibm (16103711 / 536870912) (16769667 / 16777216)) 1
        (initScene fun _ => 0)).asteroidsPerOrbit[0]? = some g ∧
      planets[0]? = some p ∧
      ∃ a ∈ g, a.angle = 16106127 / 536870912 ∧
        a.x = 6288625 / 131072 ∧ a.y = 12077783 / 8388608 ∧
        a.x ^ 2 + a.y ^ 2 = 162129583626195089 / 70368744177664 ∧
        a.x ≠ a.orbitRadius * (16769667 / 16777216) ∧
        a.x ^ 2 + a.y ^ 2 ≠ p.orbitRadius ^ 2 := by
  refine ⟨_, _, rfl, rfl, ?_⟩
  decide!

end GravSim
